import Mathlib

/-!
# A shallow embedding of the CHIP-8 interpreter core

The definitions below follow `chip8.h`, `chip8.cpp`, `screen.h` and `stack.h`.
Machine integers are natural numbers; every narrowing store is written with an
explicit `% 2 ^ w`.  Fixed-size arrays are functions from the index to the
element, and every `.at()` access keeps its bounds check.  A thrown exception is
an `Except.error`.
-/

/-! ## Constants -/

/-- Largest value of a `uint8_t`. -/
def UINT8_MAX : Nat := 255

/-- Number of values of a `uint8_t`. -/
def U8 : Nat := 256

/-- Number of values of a `uint16_t`. -/
def U16 : Nat := 65536

/-- Number of values of a `size_t` (64-bit target). -/
def USIZE : Nat := 18446744073709551616

/-- Bytes per font glyph (`FONT_STRIDE`). -/
def FONT_STRIDE : Nat := 5

/-- Address of the font table (`FONT_ADDRESS`). -/
def FONT_ADDRESS : Nat := 0x50

/-- Address of the first program byte (`START_ADDRESS`). -/
def START_ADDRESS : Nat := 0x200

/-- Value of a framebuffer cell that is on (`ACTIVE_COLOR`). -/
def ACTIVE_COLOR : Nat := 0xFFFFFFFF

/-- Framebuffer width of `Screen<64, 32>`. -/
def WIDTH : Nat := 64

/-- Framebuffer height of `Screen<64, 32>`. -/
def HEIGHT : Nat := 32

/-- Size of `std::array<uint8_t, 4096> memory`. -/
def MEMORY_SIZE : Nat := 4096

/-- Capacity of `Stack<16>`. -/
def STACK_SIZE : Nat := 16

/-- Size of `std::array<bool, 16> keys_pressed`. -/
def KEY_COUNT : Nat := 16

/-- The font table `fontset` of `chip8.cpp`. -/
def fontset : List Nat :=
  [0xF0, 0x90, 0x90, 0x90, 0xF0,
   0x20, 0x60, 0x20, 0x20, 0x70,
   0xF0, 0x10, 0xF0, 0x80, 0xF0,
   0xF0, 0x10, 0xF0, 0x10, 0xF0,
   0x90, 0x90, 0xF0, 0x10, 0x10,
   0xF0, 0x80, 0xF0, 0x10, 0xF0,
   0xF0, 0x80, 0xF0, 0x90, 0xF0,
   0xF0, 0x10, 0x20, 0x40, 0x40,
   0xF0, 0x90, 0xF0, 0x90, 0xF0,
   0xF0, 0x90, 0xF0, 0x10, 0xF0,
   0xF0, 0x90, 0xF0, 0x90, 0x90,
   0xE0, 0x90, 0xE0, 0x90, 0xE0,
   0xF0, 0x80, 0x80, 0x80, 0xF0,
   0xE0, 0x90, 0x90, 0x90, 0xE0,
   0xF0, 0x80, 0xF0, 0x80, 0xF0,
   0xF0, 0x80, 0xF0, 0x80, 0x80]

/-! ## Errors and array helpers -/

/-- The two kinds of exception the interpreter throws. -/
inductive Error where
  | out_of_range
  | illegal_instruction
  deriving DecidableEq, Repr

/-- Array store `a[i] = v`. -/
def setAt (a : Nat → Nat) (i v : Nat) : Nat → Nat :=
  fun j => if j = i then v else a j

/-- The call `std::copy_n(src.begin() + first, count, dst.begin() + out)`. -/
def copy_n (src : Nat → Nat) (first count : Nat) (dst : Nat → Nat) (out : Nat) : Nat → Nat :=
  fun j => if out ≤ j ∧ j < out + count then src (first + (j - out)) else dst j

/-- The function `bit_at` of `chip8.cpp`: `byte >> offset & 1` as a `bool`. -/
def bit_at (byte offset : Nat) : Bool :=
  (byte >>> offset) &&& 1 != 0

/-- A `bool` stored into a `uint8_t`. -/
def boolToU8 (b : Bool) : Nat := if b then 1 else 0

/-! ## `stack.h` -/

/-- The class `Stack<16>`. -/
structure Stack where
  stack_pointer : Nat
  stack : Nat → Nat

/-- The method `Stack::pop`: decrement the pointer (a `size_t`, so 0 wraps to
`USIZE - 1`), then a checked read. -/
def Stack.pop (s : Stack) : Except Error (Nat × Stack) :=
  let sp := if s.stack_pointer = 0 then USIZE - 1 else s.stack_pointer - 1
  if sp < STACK_SIZE then
    .ok (s.stack sp, { s with stack_pointer := sp })
  else
    .error .out_of_range

/-- The method `Stack::push`: a checked store, then increment the pointer. -/
def Stack.push (s : Stack) (address : Nat) : Except Error Stack :=
  if s.stack_pointer < STACK_SIZE then
    .ok { stack := setAt s.stack s.stack_pointer (address % U16),
          stack_pointer := (s.stack_pointer + 1) % USIZE }
  else
    .error .out_of_range

/-- The method `Stack::clear`. -/
def Stack.clear (_s : Stack) : Stack :=
  { stack := fun _ => 0, stack_pointer := 0 }

/-! ## `screen.h` -/

/-- The class `Screen<64, 32>`: a row-major array of `uint32_t` cells. -/
structure Screen where
  screen : Nat → Nat

/-- The method `Screen::clear`. -/
def Screen.clear (_s : Screen) : Screen :=
  { screen := fun _ => 0 }

/-- The method `Screen::draw`, with arguments already narrowed to `uint8_t`:
returns whether the cell was on, and the screen with that cell toggled. -/
def Screen.draw (s : Screen) (x y : Nat) : Bool × Screen :=
  let wrapped_x := (x % WIDTH) % U8
  let wrapped_y := (y % HEIGHT) % U8
  let offset := wrapped_x + wrapped_y * WIDTH
  let is_on := s.screen offset == ACTIVE_COLOR
  (is_on, { screen := setAt s.screen offset (if is_on then 0 else ACTIVE_COLOR) })

/-! ## `chip8.h` -/

/-- The class `Chip8`. -/
structure Chip8 where
  screen : Screen
  keys_pressed : Nat → Bool
  memory : Nat → Nat
  registers : Nat → Nat
  stack : Stack
  index : Nat
  pc : Nat
  sound_timer : Nat
  delay_timer : Nat
  instruction : Nat

namespace Chip8

/-- The constructor `Chip8::Chip8`: zeroed members, program counter at
`START_ADDRESS`, font table copied to `FONT_ADDRESS`. -/
def new : Chip8 :=
  { screen := { screen := fun _ => 0 },
    keys_pressed := fun _ => false,
    memory := copy_n (fun i => fontset.getD i 0) 0 fontset.length (fun _ => 0) FONT_ADDRESS,
    registers := fun _ => 0,
    stack := { stack_pointer := 0, stack := fun _ => 0 },
    index := 0,
    pc := START_ADDRESS,
    sound_timer := 0,
    delay_timer := 0,
    instruction := 0 }

/-- The method `Chip8::reset`. -/
def reset (s : Chip8) : Chip8 :=
  { s with
    memory := copy_n (fun i => fontset.getD i 0) 0 fontset.length (fun _ => 0) FONT_ADDRESS,
    registers := fun _ => 0,
    stack := s.stack.clear,
    screen := s.screen.clear,
    index := 0,
    pc := START_ADDRESS,
    sound_timer := 0,
    delay_timer := 0,
    instruction := 0 }

/-- The method `Chip8::fetch_instruction`: two checked reads, big-endian. -/
def fetch_instruction (s : Chip8) : Except Error Chip8 :=
  if s.pc < MEMORY_SIZE ∧ s.pc + 1 < MEMORY_SIZE then
    .ok { s with instruction := ((s.memory s.pc <<< 8) ||| s.memory (s.pc + 1)) % U16 }
  else
    .error .out_of_range

/-- The method `Chip8::increment_pc`. -/
def increment_pc (s : Chip8) : Chip8 :=
  { s with pc := (s.pc + 2) % U16 }

/-- The method `Chip8::decrement_pc`: a `uint16_t` minus 2, wrapping below 2. -/
def decrement_pc (s : Chip8) : Chip8 :=
  { s with pc := if s.pc < 2 then s.pc + U16 - 2 else s.pc - 2 }

/-- The method `Chip8::decrement_timers`. -/
def decrement_timers (s : Chip8) : Chip8 :=
  let s1 := if s.delay_timer > 0 then { s with delay_timer := s.delay_timer - 1 } else s
  if s1.sound_timer > 0 then { s1 with sound_timer := s1.sound_timer - 1 } else s1

/-- The method `Chip8::extract_nnn`. -/
def extract_nnn (s : Chip8) : Nat := s.instruction &&& 0x0FFF

/-- The method `Chip8::extract_nn`. -/
def extract_nn (s : Chip8) : Nat := (s.instruction &&& 0x00FF) % U8

/-- The method `Chip8::extract_n`. -/
def extract_n (s : Chip8) : Nat := (s.instruction &&& 0x000F) % U8

/-- The method `Chip8::extract_x`. -/
def extract_x (s : Chip8) : Nat := ((s.instruction &&& 0x0F00) >>> 8) % U8

/-- The method `Chip8::extract_y`. -/
def extract_y (s : Chip8) : Nat := ((s.instruction &&& 0x00F0) >>> 4) % U8

/-- Read through the reference `Chip8::vx`. -/
def vx (s : Chip8) : Nat := s.registers (extract_x s)

/-- Read through the reference `Chip8::vy`. -/
def vy (s : Chip8) : Nat := s.registers (extract_y s)

/-- Read through the reference `Chip8::vf`. -/
def vf (s : Chip8) : Nat := s.registers 0xF

/-- Store through the reference `Chip8::vx`, narrowed to `uint8_t`. -/
def set_vx (s : Chip8) (v : Nat) : Chip8 :=
  { s with registers := setAt s.registers (extract_x s) (v % U8) }

/-- Store through the reference `Chip8::vf`, narrowed to `uint8_t`. -/
def set_vf (s : Chip8) (v : Nat) : Chip8 :=
  { s with registers := setAt s.registers 0xF (v % U8) }

/-- The method `Chip8::illegal`. -/
def illegal (_s : Chip8) : Except Error Chip8 :=
  .error .illegal_instruction

/-- The method `Chip8::skip_if`. -/
def skip_if (s : Chip8) (condition : Bool) : Chip8 :=
  if condition then increment_pc s else s

/-- Opcode 00E0. -/
def cls (s : Chip8) : Chip8 :=
  { s with screen := s.screen.clear }

/-- Opcode 00EE. -/
def ret (s : Chip8) : Except Error Chip8 :=
  match s.stack.pop with
  | .ok (address, st) => .ok { s with stack := st, pc := address }
  | .error e => .error e

/-- Opcode 1NNN. -/
def jp_nnn (s : Chip8) : Chip8 :=
  { s with pc := extract_nnn s }

/-- Opcode 2NNN. -/
def call_nnn (s : Chip8) : Except Error Chip8 :=
  match s.stack.push s.pc with
  | .ok st => .ok (jp_nnn { s with stack := st })
  | .error e => .error e

/-- Opcode 3XNN. -/
def se_vx_nn (s : Chip8) : Chip8 := skip_if s (vx s == extract_nn s)

/-- Opcode 4XNN. -/
def sne_vx_nn (s : Chip8) : Chip8 := skip_if s (vx s != extract_nn s)

/-- Opcode 5XY0. -/
def se_vx_vy (s : Chip8) : Chip8 := skip_if s (vx s == vy s)

/-- Opcode 6XNN. -/
def ld_vx_nn (s : Chip8) : Chip8 := set_vx s (extract_nn s)

/-- Opcode 7XNN. -/
def add_vx_nn (s : Chip8) : Chip8 := set_vx s (vx s + extract_nn s)

/-- Opcode 8XY0. -/
def ld_vx_vy (s : Chip8) : Chip8 := set_vx s (vy s)

/-- Opcode 8XY1. -/
def or_vx_vy (s : Chip8) : Chip8 := set_vx s (vx s ||| vy s)

/-- Opcode 8XY2. -/
def and_vx_vy (s : Chip8) : Chip8 := set_vx s (vx s &&& vy s)

/-- Opcode 8XY3. -/
def xor_vx_vy (s : Chip8) : Chip8 := set_vx s (vx s ^^^ vy s)

/-- Opcode 8XY4: the sum is taken first, then `VF` is stored, then `VX`. -/
def add_vx_vy (s : Chip8) : Chip8 :=
  let sum := (vx s + vy s) % U16
  let s1 := set_vf s (boolToU8 (decide (sum > UINT8_MAX)))
  set_vx s1 sum

/-- Opcode 8XY5: `VF` is stored first; the subtraction then reads the registers
again. -/
def sub_vx_vy (s : Chip8) : Chip8 :=
  let s1 := set_vf s (boolToU8 (decide (vx s > vy s)))
  set_vx s1 (vx s1 + U8 - vy s1)

/-- Opcode 8XY6. -/
def shr_vx (s : Chip8) : Chip8 :=
  let s1 := set_vf s (boolToU8 (bit_at (vx s) 0))
  set_vx s1 (vx s1 >>> 1)

/-- Opcode 8XY7: `VF` is stored first; the subtraction then reads the registers
again. -/
def subn_vx_vy (s : Chip8) : Chip8 :=
  let s1 := set_vf s (boolToU8 (decide (vy s > vx s)))
  set_vx s1 (vy s1 + U8 - vx s1)

/-- Opcode handler `shl_vx`. -/
def shl_vx (s : Chip8) : Chip8 :=
  let s1 := set_vf s (boolToU8 (bit_at (vx s) 7))
  set_vx s1 (vx s1 <<< 1)

/-- Opcode 9XY0. -/
def sne_vx_vy (s : Chip8) : Chip8 := skip_if s (vx s != vy s)

/-- Opcode ANNN. -/
def ld_i_nnn (s : Chip8) : Chip8 :=
  { s with index := extract_nnn s }

/-- Opcode BNNN. -/
def jp_v0_nnn (s : Chip8) : Chip8 :=
  { s with pc := (s.registers 0 + extract_nnn s) % U16 }

/-- Opcode CXNN; `r` is the value returned by `std::rand()`. -/
def rnd_vx_nn (r : Nat) (s : Chip8) : Chip8 :=
  set_vx s ((r % UINT8_MAX) &&& extract_nn s)

/-- One pass of the inner loop of `drw_vx_vy_n`, for column `dx` of row `dy`. -/
def drw_pixel (x y byte dy : Nat) (s : Chip8) (dx : Nat) : Chip8 :=
  if bit_at byte ((7 - dx) % U8) then
    let r := s.screen.draw ((x + dx) % U8) ((y + dy) % U8)
    set_vf { s with screen := r.2 } (boolToU8 r.1)
  else
    s

/-- One pass of the outer loop of `drw_vx_vy_n`: a checked read of the sprite
row, then the inner loop over its eight columns. -/
def drw_row (x y : Nat) (s : Chip8) (dy : Nat) : Except Error Chip8 :=
  if s.index + dy < MEMORY_SIZE then
    .ok ((List.range 8).foldl (drw_pixel x y (s.memory (s.index + dy)) dy) s)
  else
    .error .out_of_range

/-- Opcode DXYN. -/
def drw_vx_vy_n (s : Chip8) : Except Error Chip8 :=
  let x := vx s
  let y := vy s
  let n := extract_n s
  (List.range n).foldlM (drw_row x y) (set_vf s 0)

/-- Opcode EX9E. -/
def skp_vx (s : Chip8) : Except Error Chip8 :=
  if vx s < KEY_COUNT then .ok (skip_if s (s.keys_pressed (vx s)))
  else .error .out_of_range

/-- Opcode EXA1. -/
def sknp_vx (s : Chip8) : Except Error Chip8 :=
  if vx s < KEY_COUNT then .ok (skip_if s (!s.keys_pressed (vx s)))
  else .error .out_of_range

/-- Opcode FX07. -/
def ld_vx_dt (s : Chip8) : Chip8 := set_vx s s.delay_timer

/-- Opcode FX0A: `std::find` of the first pressed key. -/
def ld_vx_k (s : Chip8) : Chip8 :=
  match (List.range KEY_COUNT).find? (fun i => s.keys_pressed i) with
  | some i => set_vx s i
  | none => decrement_pc s

/-- Opcode FX15. -/
def ld_dt_vx (s : Chip8) : Chip8 :=
  { s with delay_timer := vx s }

/-- Opcode FX18. -/
def ld_st_vx (s : Chip8) : Chip8 :=
  { s with sound_timer := vx s }

/-- Opcode FX1E. -/
def add_i_vx (s : Chip8) : Chip8 :=
  { s with index := (s.index + vx s) % U16 }

/-- Opcode FX29. -/
def ld_f_vx (s : Chip8) : Chip8 :=
  { s with index := (vx s * FONT_STRIDE + FONT_ADDRESS) % U16 }

/-- A checked store `memory.at(a) = v`. -/
def store_at (s : Chip8) (a v : Nat) : Except Error Chip8 :=
  if a < MEMORY_SIZE then .ok { s with memory := setAt s.memory a (v % U8) }
  else .error .out_of_range

/-- Opcode FX33. -/
def ld_b_vx (s : Chip8) : Except Error Chip8 := do
  let s1 ← store_at s s.index (vx s / 100)
  let s2 ← store_at s1 (s1.index + 1) (vx s1 / 10 % 10)
  store_at s2 (s2.index + 2) (vx s2 % 10)

/-- Opcode FX55 (built without `INCREMENT_INDEX`). -/
def ld_mem_vx (s : Chip8) : Except Error Chip8 :=
  let x := extract_x s
  if s.index + x ≥ MEMORY_SIZE then .error .out_of_range
  else .ok { s with memory := copy_n s.registers 0 x s.memory s.index }

/-- Opcode FX65 (built without `INCREMENT_INDEX`). -/
def ld_vx_mem (s : Chip8) : Except Error Chip8 :=
  let x := extract_x s
  if s.index + x ≥ MEMORY_SIZE then .error .out_of_range
  else .ok { s with registers := copy_n s.memory s.index x s.registers 0 }

/-- The method `Chip8::execute_instruction`; `r` is what `std::rand()` would
return. -/
def execute_instruction (r : Nat) (s : Chip8) : Except Error Chip8 :=
  match s.instruction >>> 12 with
  | 0x0 =>
    match extract_nn s with
    | 0xE0 => .ok (cls s)
    | 0xEE => ret s
    | _ => illegal s
  | 0x1 => .ok (jp_nnn s)
  | 0x2 => call_nnn s
  | 0x3 => .ok (se_vx_nn s)
  | 0x4 => .ok (sne_vx_nn s)
  | 0x5 => if extract_n s ≠ 0 then illegal s else .ok (se_vx_vy s)
  | 0x6 => .ok (ld_vx_nn s)
  | 0x7 => .ok (add_vx_nn s)
  | 0x8 =>
    match extract_n s with
    | 0x0 => .ok (ld_vx_vy s)
    | 0x1 => .ok (or_vx_vy s)
    | 0x2 => .ok (and_vx_vy s)
    | 0x3 => .ok (xor_vx_vy s)
    | 0x4 => .ok (add_vx_vy s)
    | 0x5 => .ok (sub_vx_vy s)
    | 0x6 => .ok (shr_vx s)
    | 0x7 => .ok (subn_vx_vy s)
    | 0x8 => .ok (shl_vx s)
    | _ => illegal s
  | 0x9 => if extract_n s ≠ 0 then illegal s else .ok (sne_vx_vy s)
  | 0xA => .ok (ld_i_nnn s)
  | 0xB => .ok (jp_v0_nnn s)
  | 0xC => .ok (rnd_vx_nn r s)
  | 0xD => drw_vx_vy_n s
  | 0xE =>
    match extract_nn s with
    | 0x9E => skp_vx s
    | 0xA1 => sknp_vx s
    | _ => illegal s
  | 0xF =>
    match extract_nn s with
    | 0x07 => .ok (ld_vx_dt s)
    | 0x0A => .ok (ld_vx_k s)
    | 0x15 => .ok (ld_dt_vx s)
    | 0x18 => .ok (ld_st_vx s)
    | 0x1E => .ok (add_i_vx s)
    | 0x29 => .ok (ld_f_vx s)
    | 0x33 => ld_b_vx s
    | 0x55 => ld_mem_vx s
    | 0x65 => ld_vx_mem s
    | _ => .ok s
  | _ => illegal s

/-- The method `Chip8::cycle`; `r` is what `std::rand()` would return. -/
def cycle (r : Nat) (s : Chip8) : Except Error Chip8 := do
  let s1 ← fetch_instruction s
  let s2 ← execute_instruction r (increment_pc s1)
  pure (decrement_timers s2)

end Chip8

/-! ## Concrete machine states used by the closed statements -/

/-- A fresh machine with a given instruction word and register file. -/
def machine (instruction : Nat) (registers : Nat → Nat) : Chip8 :=
  { Chip8.new with instruction := instruction, registers := registers }

/-- Registers A = 0xFF and B = 0x01, all others zero. -/
def regs_add_demo : Nat → Nat := setAt (setAt (fun _ => 0) 0xA 0xFF) 0xB 0x01

/-- Registers V0 = 5 and VF = 3, all others zero. -/
def regs_sub_demo : Nat → Nat := setAt (setAt (fun _ => 0) 0x0 5) 0xF 3

/-- A fresh machine set up for a draw: instruction word, index register, memory,
register file and framebuffer cells. -/
def draw_machine (instruction index : Nat) (memory registers screen : Nat → Nat) : Chip8 :=
  { Chip8.new with
    instruction := instruction, index := index, memory := memory,
    registers := registers, screen := { screen := screen } }

/-- Memory holding the single sprite row 0xC0 at address 0x300. -/
def mem_two_pixels : Nat → Nat := setAt (fun _ => 0) 0x300 0xC0

/-- A framebuffer whose only lit cell is (0, 0). -/
def screen_corner_on : Nat → Nat := setAt (fun _ => 0) 0 ACTIVE_COLOR

/-! ## Vocabulary for the drawing theorems -/

/-- Row-major offset of the cell that column `dx` of row `dy` of a sprite drawn
at origin `(x, y)` lands on: `((x + dx) mod 64, (y + dy) mod 32)`. -/
def cell (x y dx dy : Nat) : Nat :=
  (x + dx) % WIDTH + (y + dy) % HEIGHT * WIDTH

/-- Whether a framebuffer cell is on. -/
def is_on (scr : Screen) (o : Nat) : Bool := scr.screen o == ACTIVE_COLOR

/-- The effect of one set sprite pixel on the machine: the cell at offset `o`
is toggled and VF receives whether it was on. -/
def plot (s : Chip8) (o : Nat) : Chip8 :=
  { s with
    screen := { screen := setAt s.screen.screen o (if is_on s.screen o then 0 else ACTIVE_COLOR) },
    registers := setAt s.registers 0xF (boolToU8 (is_on s.screen o) % U8) }

/-- The pixels plotted one after the other. -/
def paint (s : Chip8) (cells : List Nat) : Chip8 := cells.foldl plot s

/-- Offsets hit by one sprite row, in drawing order. -/
def row_cells (x y byte dy : Nat) : List Nat :=
  ((List.range 8).filter (fun dx => bit_at byte (7 - dx))).map (fun dx => cell x y dx dy)

/-- Offsets hit by the sprite rows listed in `rows`, in drawing order. -/
def sprite_cells (memory : Nat → Nat) (index x y : Nat) : List Nat → List Nat
  | [] => []
  | dy :: rows => row_cells x y (memory (index + dy)) dy ++ sprite_cells memory index x y rows

/-- The cell at column `cx`, row `cy` is the target of a set bit of the
`N`-row sprite at `memory[I ..]` drawn at origin `(VX, VY)`. -/
def sprite_covers (s : Chip8) (X Y N cx cy : Nat) : Prop :=
  ∃ dx, dx < 8 ∧ ∃ dy, dy < N ∧ bit_at (s.memory (s.index + dy)) (7 - dx) = true ∧
    cx = (s.registers X + dx) % WIDTH ∧ cy = (s.registers Y + dy) % HEIGHT

/-- Memory holding the single sprite row 0xFF at address 0x300. -/
def mem_full_row : Nat → Nat := setAt (fun _ => 0) 0x300 0xFF

/-! ## Vocabulary for runs of the machine -/

/-- The instruction word that `fetch_instruction` reads at address `p`. -/
def word_at (memory : Nat → Nat) (p : Nat) : Nat :=
  ((memory p <<< 8) ||| memory (p + 1)) % U16

/-- The successful path of `Chip8::load_rom`: at most `memory.size() -
START_ADDRESS` bytes of the file are read into memory at `START_ADDRESS`. -/
def Chip8.load_rom (s : Chip8) (rom : List Nat) : Chip8 :=
  let space := MEMORY_SIZE - START_ADDRESS
  let count := min rom.length space
  { s with memory := copy_n (fun i => rom.getD i 0 % U8) 0 count s.memory START_ADDRESS }

/-- One `cycle()` on each machine of the list in turn, where each machine runs
on the call stack left by the cycle before it and is otherwise arbitrary (other
instructions may have run in between).  Returns the program counter after each
cycle and the final call stack. -/
def run_ops (r : Nat) (st : Stack) : List Chip8 → Except Error (List Nat × Stack)
  | [] => .ok ([], st)
  | a :: rest =>
    match Chip8.cycle r { a with stack := st } with
    | .error e => .error e
    | .ok s' =>
      match run_ops r s'.stack rest with
      | .error e => .error e
      | .ok (pcs, st') => .ok (s'.pc :: pcs, st')

/-- Successive `cycle()` calls, one for each listed value of `std::rand()`. -/
def run_cycles : List Nat → Chip8 → Except Error Chip8
  | [], s => .ok s
  | r :: rs, s =>
    match Chip8.cycle r s with
    | .ok s' => run_cycles rs s'
    | .error e => .error e

/-- The program counter points at a call instruction (2NNN) inside memory. -/
def at_call (s : Chip8) : Prop :=
  s.pc + 1 < MEMORY_SIZE ∧ word_at s.memory s.pc / 0x1000 = 0x2

/-- The program counter points at a return instruction (00EE) inside memory. -/
def at_ret (s : Chip8) : Prop :=
  s.pc + 1 < MEMORY_SIZE ∧ word_at s.memory s.pc = 0x00EE

/-- The machine states the host can reach: construction, loading a program,
key events, reset, and successful cycles. -/
inductive Reachable : Chip8 → Prop where
  | construct : Reachable Chip8.new
  | load (s : Chip8) (rom : List Nat) : Reachable s → Reachable (s.load_rom rom)
  | keys (s : Chip8) (k : Nat → Bool) :
      Reachable s → Reachable ({ s with keys_pressed := k } : Chip8)
  | reset (s : Chip8) : Reachable s → Reachable s.reset
  | cycle (s s' : Chip8) (r : Nat) : Reachable s → Chip8.cycle r s = .ok s' → Reachable s'

/-- A fresh machine with the program counter at `pc` and the two bytes `hi`,
`lo` stored there. -/
def machine_at (pc hi lo : Nat) : Chip8 :=
  { Chip8.new with pc := pc, memory := setAt (setAt (fun _ => 0) pc hi) (pc + 1) lo }

/-- The machine `machine_at pc hi lo` with the keypad flags `keys`. -/
def machine_keys (pc hi lo : Nat) (keys : Nat → Bool) : Chip8 :=
  { machine_at pc hi lo with keys_pressed := keys }

/-- Keypad with keys 5 and 9 held down. -/
def keys_5_and_9 : Nat → Bool := fun i => i == 5 || i == 9

/-- A fresh machine with a given instruction word, index register, memory and
register file. -/
def mem_machine (instruction index : Nat) (memory registers : Nat → Nat) : Chip8 :=
  { Chip8.new with
    instruction := instruction, index := index, memory := memory, registers := registers }

/-- Registers V0 = 0x11 and V1 = 0x22, all others zero. -/
def regs_two : Nat → Nat := setAt (setAt (fun _ => 0) 0x0 0x11) 0x1 0x22

/-- Memory holding 0x11 at 0x300 and 0x22 at 0x301, zero elsewhere. -/
def mem_two : Nat → Nat := setAt (setAt (fun _ => 0) 0x300 0x11) 0x301 0x22

/-- Registers with V0 = 0x81, all others zero. -/
def regs_v0_81 : Nat → Nat := setAt (fun _ => 0) 0x0 0x81

/-- The 35 opcode signatures 00E0, 00EE, 1NNN, 2NNN, 3XNN, 4XNN, 5XY0, 6XNN,
7XNN, 8XY0 to 8XY7, 8XYE, 9XY0, ANNN, BNNN, CXNN, DXYN, EX9E, EXA1, FX07, FX0A,
FX15, FX18, FX1E, FX29, FX33, FX55, FX65, as a test on a 16-bit word. -/
def known_opcode (w : Nat) : Bool :=
  let op := w / 0x1000
  let nn := w % 0x100
  let n := w % 0x10
  w == 0x00E0 || w == 0x00EE || op == 0x1 || op == 0x2 || op == 0x3 || op == 0x4 ||
  (op == 0x5 && n == 0x0) || op == 0x6 || op == 0x7 ||
  (op == 0x8 && (decide (n ≤ 0x7) || n == 0xE)) || (op == 0x9 && n == 0x0) ||
  op == 0xA || op == 0xB || op == 0xC || op == 0xD ||
  (op == 0xE && (nn == 0x9E || nn == 0xA1)) ||
  (op == 0xF && (nn == 0x07 || nn == 0x0A || nn == 0x15 || nn == 0x18 || nn == 0x1E ||
    nn == 0x29 || nn == 0x33 || nn == 0x55 || nn == 0x65))

/-! ## Vocabulary for the later theorems -/

/-- Opcode FX55 together with the machine it leaves behind: the state at the
point where the handler returns or throws, and the exception when it throws.
The bounds check comes before the copy. -/
def Chip8.ld_mem_vx_outcome (s : Chip8) : Chip8 × Option Error :=
  let x := s.extract_x
  if s.index + x ≥ MEMORY_SIZE then (s, some .out_of_range)
  else ({ s with memory := copy_n s.registers 0 x s.memory s.index }, none)

/-- Opcode FX65 together with the machine it leaves behind: the state at the
point where the handler returns or throws, and the exception when it throws.
The bounds check comes before the copy. -/
def Chip8.ld_vx_mem_outcome (s : Chip8) : Chip8 × Option Error :=
  let x := s.extract_x
  if s.index + x ≥ MEMORY_SIZE then (s, some .out_of_range)
  else ({ s with registers := copy_n s.memory s.index x s.registers 0 }, none)

/-- The result of a handler as the exception-or-state value of the embedding. -/
def as_result (o : Chip8 × Option Error) : Except Error Chip8 :=
  match o.2 with
  | none => .ok o.1
  | some e => .error e

/-- The instruction at the program counter is a jump or call (1NNN, 2NNN) to an
odd address, or a jump with offset (BNNN) whose target V0 + NNN is odd. -/
def odd_jump (s : Chip8) : Prop :=
  ((word_at s.memory s.pc / 0x1000 = 0x1 ∨ word_at s.memory s.pc / 0x1000 = 0x2) ∧
    word_at s.memory s.pc % 2 = 1) ∨
  (word_at s.memory s.pc / 0x1000 = 0xB ∧
    (s.registers 0 + word_at s.memory s.pc % 0x1000) % 2 = 1)

/-- The machine states reached as in `Reachable`, where no cycle executes a
jump or call to an odd target. -/
inductive ReachableAligned : Chip8 → Prop where
  | construct : ReachableAligned Chip8.new
  | load (s : Chip8) (rom : List Nat) : ReachableAligned s → ReachableAligned (s.load_rom rom)
  | keys (s : Chip8) (k : Nat → Bool) :
      ReachableAligned s → ReachableAligned ({ s with keys_pressed := k } : Chip8)
  | reset (s : Chip8) : ReachableAligned s → ReachableAligned s.reset
  | cycle (s s' : Chip8) (r : Nat) :
      ReachableAligned s → ¬ odd_jump s → Chip8.cycle r s = .ok s' → ReachableAligned s'

/-- Registers V0 = 3 and VF = 5, all others zero. -/
def regs_subn_demo : Nat → Nat := setAt (setAt (fun _ => 0) 0x0 3) 0xF 5

/-- Registers with V0 = 1, all others zero. -/
def regs_v0_1 : Nat → Nat := setAt (fun _ => 0) 0x0 1

/-- Registers with V2 = 0xEA (decimal 234), all others zero. -/
def regs_v2_234 : Nat → Nat := setAt (fun _ => 0) 0x2 0xEA

/-- The program 6A02 6B03 8AB4. -/
def rom_add_demo : List Nat := [0x6A, 0x02, 0x6B, 0x03, 0x8A, 0xB4]

/-- The program 1201: a jump to the odd address 0x201. -/
def rom_odd_jump : List Nat := [0x12, 0x01]

/-- The machine `machine_at pc hi lo` with the delay and sound timers set. -/
def machine_timers (pc hi lo delay sound : Nat) : Chip8 :=
  { machine_at pc hi lo with delay_timer := delay, sound_timer := sound }

/-- Opcode EX9E together with the machine it leaves behind: the checked read
`keys_pressed.at(vx())` comes before any change, so when it throws the machine is
as the handler found it. -/
def Chip8.skp_vx_outcome (s : Chip8) : Chip8 × Option Error :=
  if s.vx < KEY_COUNT then (s.skip_if (s.keys_pressed s.vx), none)
  else (s, some .out_of_range)

/-- Opcode EXA1 together with the machine it leaves behind: the checked read
`keys_pressed.at(vx())` comes before any change, so when it throws the machine is
as the handler found it. -/
def Chip8.sknp_vx_outcome (s : Chip8) : Chip8 × Option Error :=
  if s.vx < KEY_COUNT then (s.skip_if (!s.keys_pressed s.vx), none)
  else (s, some .out_of_range)

/-- Registers with V3 = 5, all others zero. -/
def regs_v3_5 : Nat → Nat := setAt (fun _ => 0) 0x3 5

/-- Registers with V3 = 16, all others zero. -/
def regs_v3_16 : Nat → Nat := setAt (fun _ => 0) 0x3 16

/-- The machine `machine_keys pc hi lo keys` with the register file `registers`. -/
def machine_keys_regs (pc hi lo : Nat) (keys : Nat → Bool) (registers : Nat → Nat) : Chip8 :=
  { machine_keys pc hi lo keys with registers := registers }

/-! ## Decoding lemmas -/

theorem shiftRight_and (a b k : Nat) : (a &&& b) >>> k = (a >>> k) &&& (b >>> k) := by
  apply Nat.eq_of_testBit_eq
  intro i
  simp only [Nat.testBit_shiftRight, Nat.testBit_and]

theorem Chip8.extract_x_eq (s : Chip8) : s.extract_x = s.instruction / 256 % 16 := by
  unfold Chip8.extract_x U8
  rw [shiftRight_and]
  have h : (0x0F00 >>> 8 : Nat) = 2 ^ 4 - 1 := by decide
  rw [h, Nat.and_pow_two_sub_one_eq_mod, Nat.shiftRight_eq_div_pow]
  omega

theorem Chip8.extract_y_eq (s : Chip8) : s.extract_y = s.instruction / 16 % 16 := by
  unfold Chip8.extract_y U8
  rw [shiftRight_and]
  have h : (0x00F0 >>> 4 : Nat) = 2 ^ 4 - 1 := by decide
  rw [h, Nat.and_pow_two_sub_one_eq_mod, Nat.shiftRight_eq_div_pow]
  omega

theorem Chip8.extract_n_eq (s : Chip8) : s.extract_n = s.instruction % 16 := by
  unfold Chip8.extract_n U8
  have h : (0x000F : Nat) = 2 ^ 4 - 1 := by decide
  rw [h, Nat.and_pow_two_sub_one_eq_mod]
  omega

theorem Chip8.extract_nn_eq (s : Chip8) : s.extract_nn = s.instruction % 256 := by
  unfold Chip8.extract_nn U8
  have h : (0x00FF : Nat) = 2 ^ 8 - 1 := by decide
  rw [h, Nat.and_pow_two_sub_one_eq_mod]
  omega

theorem Chip8.extract_nnn_eq (s : Chip8) : s.extract_nnn = s.instruction % 4096 := by
  unfold Chip8.extract_nnn
  have h : (0x0FFF : Nat) = 2 ^ 12 - 1 := by decide
  rw [h, Nat.and_pow_two_sub_one_eq_mod]

theorem Chip8.opclass_eq (s : Chip8) : s.instruction >>> 12 = s.instruction / 4096 := by
  rw [Nat.shiftRight_eq_div_pow]

theorem setAt_same (a : Nat → Nat) (i v : Nat) : setAt a i v i = v := by
  simp [setAt]

theorem setAt_other (a : Nat → Nat) (i v j : Nat) (h : j ≠ i) : setAt a i v j = a j := by
  simp [setAt, h]

/-! ## Arithmetic opcodes -/

theorem Chip8.add_vx_vy_registers (s : Chip8) :
    s.add_vx_vy.registers =
      setAt (setAt s.registers 0xF (boolToU8 (decide ((s.vx + s.vy) % U16 > UINT8_MAX)) % U8))
        s.extract_x ((s.vx + s.vy) % U16 % U8) := rfl

/-- C1: two-register add (8XY4) with X other than 0xF and any Y: writing a and b
for VX and VY before execution, afterwards VF is 1 when a + b exceeds 255 and 0
otherwise, and VX holds (a + b) mod 256. -/
theorem add_vx_vy_carry (r : Nat) (s : Chip8) (X Y : Nat) (hX : X < 0xF) (hY : Y ≤ 0xF)
    (hi : s.instruction = 0x8004 + 0x100 * X + 0x10 * Y)
    (hr : ∀ i, s.registers i ≤ UINT8_MAX) :
    ∃ s', Chip8.execute_instruction r s = .ok s' ∧
      s'.registers 0xF = (if s.registers X + s.registers Y > 255 then 1 else 0) ∧
      s'.registers X = (s.registers X + s.registers Y) % 256 := by
  have h12 : s.instruction >>> 12 = 8 := by rw [Chip8.opclass_eq]; omega
  have hn : s.extract_n = 4 := by rw [Chip8.extract_n_eq]; omega
  have hx : s.extract_x = X := by rw [Chip8.extract_x_eq]; omega
  have hy : s.extract_y = Y := by rw [Chip8.extract_y_eq]; omega
  have ha := hr X
  have hb := hr Y
  simp only [UINT8_MAX] at ha hb
  refine ⟨s.add_vx_vy, ?_, ?_, ?_⟩
  · simp [Chip8.execute_instruction, h12, hn]
  · have hne : (0xF : Nat) ≠ X := by omega
    rw [Chip8.add_vx_vy_registers, hx, setAt_other _ _ _ _ hne, setAt_same]
    simp only [Chip8.vx, Chip8.vy, hx, hy, boolToU8, U16, U8, UINT8_MAX]
    by_cases h : s.registers X + s.registers Y > 255
    · have h2 : (s.registers X + s.registers Y) % 65536 > 255 := by omega
      simp [h, h2]
    · have h2 : ¬ (s.registers X + s.registers Y) % 65536 > 255 := by omega
      simp [h, h2]
  · rw [Chip8.add_vx_vy_registers, hx, setAt_same]
    simp only [Chip8.vx, Chip8.vy, hx, hy, U16, U8]
    omega

/-- The concrete scenario of C1: registers A = 0xFF and B = 0x01, instruction
0x8AB4, give A = 0x00 and VF = 1. -/
theorem add_vx_vy_carry_witness :
    ∃ s', Chip8.execute_instruction 0 (machine 0x8AB4 regs_add_demo) = .ok s' ∧
      s'.registers 0xF = 1 ∧ s'.registers 0xA = 0 := by
  have h := add_vx_vy_carry 0 (machine 0x8AB4 regs_add_demo) 0xA 0xB (by decide) (by decide)
    (by decide) (by intro i; simp only [machine, regs_add_demo, setAt, UINT8_MAX]; split_ifs <;> omega)
  obtain ⟨s', h1, h2, h3⟩ := h
  exact ⟨s', h1, by rw [h2]; decide, by rw [h3]; decide⟩

theorem Chip8.sub_vx_vy_registers (s : Chip8) :
    s.sub_vx_vy.registers =
      setAt (setAt s.registers 0xF (boolToU8 (decide (s.vx > s.vy)) % U8)) s.extract_x
        ((setAt s.registers 0xF (boolToU8 (decide (s.vx > s.vy)) % U8) s.extract_x + U8
          - setAt s.registers 0xF (boolToU8 (decide (s.vx > s.vy)) % U8) s.extract_y) % U8) := rfl

/-- Subtract (8XY5) when neither X nor Y is 0xF: VF is 1 when a exceeds b and 0
otherwise, and VX holds (a - b) mod 256 of the values before execution. -/
theorem sub_vx_vy_borrow_of_ne (r : Nat) (s : Chip8) (X Y : Nat) (hX : X < 0xF) (hY : Y < 0xF)
    (hi : s.instruction = 0x8005 + 0x100 * X + 0x10 * Y) :
    ∃ s', Chip8.execute_instruction r s = .ok s' ∧
      s'.registers 0xF = (if s.registers X > s.registers Y then 1 else 0) ∧
      s'.registers X = (s.registers X + 256 - s.registers Y) % 256 := by
  have h12 : s.instruction >>> 12 = 8 := by rw [Chip8.opclass_eq]; omega
  have hn : s.extract_n = 5 := by rw [Chip8.extract_n_eq]; omega
  have hx : s.extract_x = X := by rw [Chip8.extract_x_eq]; omega
  have hy : s.extract_y = Y := by rw [Chip8.extract_y_eq]; omega
  have hneX : (0xF : Nat) ≠ X := by omega
  have hneX2 : X ≠ 0xF := by omega
  have hneY : Y ≠ 0xF := by omega
  refine ⟨s.sub_vx_vy, ?_, ?_, ?_⟩
  · simp [Chip8.execute_instruction, h12, hn]
  · rw [Chip8.sub_vx_vy_registers, hx, setAt_other _ _ _ _ hneX, setAt_same]
    simp only [Chip8.vx, Chip8.vy, hx, hy, boolToU8, U8]
    by_cases h : s.registers X > s.registers Y <;> simp [h]
  · rw [Chip8.sub_vx_vy_registers, hx, hy, setAt_same, setAt_other _ _ _ _ hneX2,
      setAt_other _ _ _ _ hneY]
    simp only [U8]

/-- C2, evaluated where Y is 0xF: with V0 = 5 and VF = 3 the instruction 0x80F5
stores the flag 1 first and then subtracts that flag, leaving V0 = 4 where
(5 - 3) mod 256 = 2 is claimed. -/
theorem sub_vx_vy_subtracts_new_flag :
    ∃ s', Chip8.execute_instruction 0 (machine 0x80F5 regs_sub_demo) = .ok s' ∧
      (machine 0x80F5 regs_sub_demo).registers 0x0 = 5 ∧
      (machine 0x80F5 regs_sub_demo).registers 0xF = 3 ∧
      s'.registers 0xF = 1 ∧ s'.registers 0x0 = 4 ∧
      s'.registers 0x0 ≠ (5 + 256 - 3) % 256 :=
  ⟨_, rfl, by decide, by decide, by decide, by decide, by decide⟩

/-! ## Drawing -/

/-- C3, evaluated on a collision followed by a miss: cell (0, 0) is on, the
sprite row 0xC0 is drawn at (0, 0); the first set pixel turns the lit cell off
(a collision), the second lands on an off cell, and VF ends as 0. -/
theorem drw_flag_overwritten_by_later_pixel :
    ∃ s', Chip8.execute_instruction 0
        (draw_machine 0xD001 0x300 mem_two_pixels (fun _ => 0) screen_corner_on) = .ok s' ∧
      screen_corner_on 0 = ACTIVE_COLOR ∧ bit_at (mem_two_pixels 0x300) 7 = true ∧
      screen_corner_on 1 = 0 ∧ bit_at (mem_two_pixels 0x300) 6 = true ∧
      s'.screen.screen 0 = 0 ∧ s'.screen.screen 1 = ACTIVE_COLOR ∧
      s'.registers 0xF = 0 :=
  ⟨_, rfl, by decide, by decide, by decide, by decide, by decide, by decide, by decide⟩

theorem drw_pixel_eq (x y byte dy : Nat) (s : Chip8) (dx : Nat) :
    Chip8.drw_pixel x y byte dy s dx =
      if bit_at byte (7 - dx) then plot s (cell x y dx dy) else s := by
  have h7 : (7 - dx) % U8 = 7 - dx := by unfold U8; omega
  have ho : (x + dx) % U8 % WIDTH % U8 + (y + dy) % U8 % HEIGHT % U8 * WIDTH = cell x y dx dy := by
    unfold cell U8 WIDTH HEIGHT; omega
  unfold Chip8.drw_pixel
  rw [h7]
  by_cases hb : bit_at byte (7 - dx) = true
  · simp only [hb, if_true, Screen.draw, ho, Chip8.set_vf, plot, is_on]
  · simp only [hb, if_false, Bool.false_eq_true]

theorem foldl_drw_pixel (x y byte dy : Nat) (l : List Nat) (s : Chip8) :
    l.foldl (Chip8.drw_pixel x y byte dy) s =
      paint s ((l.filter (fun dx => bit_at byte (7 - dx))).map (fun dx => cell x y dx dy)) := by
  induction l generalizing s with
  | nil => rfl
  | cons dx l ih =>
    rw [List.foldl_cons, ih, drw_pixel_eq]
    by_cases hb : bit_at byte (7 - dx) = true
    · simp [hb, paint]
    · simp [hb]

theorem paint_append (s : Chip8) (a b : List Nat) : paint s (a ++ b) = paint (paint s a) b := by
  simp [paint, List.foldl_append]

theorem paint_memory (s : Chip8) (l : List Nat) : (paint s l).memory = s.memory := by
  induction l generalizing s with
  | nil => rfl
  | cons o l ih => simp only [paint, List.foldl_cons] at ih ⊢; rw [ih]; rfl

theorem paint_index (s : Chip8) (l : List Nat) : (paint s l).index = s.index := by
  induction l generalizing s with
  | nil => rfl
  | cons o l ih => simp only [paint, List.foldl_cons] at ih ⊢; rw [ih]; rfl

theorem paint_instruction (s : Chip8) (l : List Nat) :
    (paint s l).instruction = s.instruction := by
  induction l generalizing s with
  | nil => rfl
  | cons o l ih => simp only [paint, List.foldl_cons] at ih ⊢; rw [ih]; rfl

theorem paint_registers (s : Chip8) (l : List Nat) (i : Nat) (hi : i ≠ 0xF) :
    (paint s l).registers i = s.registers i := by
  induction l generalizing s with
  | nil => rfl
  | cons o l ih =>
    simp only [paint, List.foldl_cons] at ih ⊢
    rw [ih]
    exact setAt_other _ _ _ _ hi

theorem drw_row_eq (x y : Nat) (s : Chip8) (dy : Nat) (h : s.index + dy < MEMORY_SIZE) :
    Chip8.drw_row x y s dy = .ok (paint s (row_cells x y (s.memory (s.index + dy)) dy)) := by
  unfold Chip8.drw_row
  rw [if_pos h, foldl_drw_pixel]
  rfl

theorem foldlM_drw_row (x y : Nat) (rows : List Nat) (s : Chip8)
    (h : ∀ dy ∈ rows, s.index + dy < MEMORY_SIZE) :
    rows.foldlM (Chip8.drw_row x y) s =
      .ok (paint s (sprite_cells s.memory s.index x y rows)) := by
  induction rows generalizing s with
  | nil => rfl
  | cons dy rows ih =>
    rw [List.foldlM_cons, drw_row_eq x y s dy (h dy (List.mem_cons_self _ _))]
    have h2 : ∀ d ∈ rows, (paint s (row_cells x y (s.memory (s.index + dy)) dy)).index + d
        < MEMORY_SIZE := by
      intro d hd
      rw [paint_index]
      exact h d (List.mem_cons_of_mem _ hd)
    show rows.foldlM (Chip8.drw_row x y) (paint s (row_cells x y (s.memory (s.index + dy)) dy)) = _
    rw [ih _ h2, paint_memory, paint_index, sprite_cells, paint_append]

theorem paint_cons (s : Chip8) (o : Nat) (l : List Nat) :
    paint s (o :: l) = paint (plot s o) l := rfl

theorem plot_screen_other (s : Chip8) (o p : Nat) (h : p ≠ o) :
    (plot s o).screen.screen p = s.screen.screen p :=
  setAt_other _ _ _ _ h

theorem plot_screen_same (s : Chip8) (o : Nat) :
    (plot s o).screen.screen o = if is_on s.screen o then 0 else ACTIVE_COLOR :=
  setAt_same _ _ _

theorem paint_screen_not_mem (s : Chip8) (l : List Nat) (p : Nat) (h : p ∉ l) :
    (paint s l).screen.screen p = s.screen.screen p := by
  induction l generalizing s with
  | nil => rfl
  | cons o l ih =>
    rw [paint_cons, ih _ (fun hm => h (List.mem_cons_of_mem _ hm))]
    exact plot_screen_other s o p (fun e => h (e ▸ List.mem_cons_self _ _))

theorem paint_screen_mem (s : Chip8) (l : List Nat) (p : Nat) (hn : l.Nodup) (h : p ∈ l) :
    (paint s l).screen.screen p = if is_on s.screen p then 0 else ACTIVE_COLOR := by
  induction l generalizing s with
  | nil => exact absurd h (List.not_mem_nil _)
  | cons o l ih =>
    rw [paint_cons]
    have hn2 := List.nodup_cons.mp hn
    rcases List.mem_cons.mp h with e | hm
    · subst e
      rw [paint_screen_not_mem _ _ _ hn2.1, plot_screen_same]
    · have hne : p ≠ o := fun e => hn2.1 (e ▸ hm)
      rw [ih _ hn2.2 hm]
      simp only [is_on, plot_screen_other s o p hne]

theorem paint_flag (s : Chip8) (l : List Nat) (b : Bool) (hn : l.Nodup) (hl : l ≠ [])
    (h : ∀ p ∈ l, is_on s.screen p = b) :
    (paint s l).registers 0xF = boolToU8 b := by
  induction l generalizing s with
  | nil => exact absurd rfl hl
  | cons o l ih =>
    rw [paint_cons]
    have hn2 := List.nodup_cons.mp hn
    by_cases hl2 : l = []
    · subst hl2
      have ho := h o (List.mem_cons_self _ _)
      show setAt s.registers 0xF (boolToU8 (is_on s.screen o) % U8) 0xF = boolToU8 b
      rw [setAt_same, ho]
      cases b <;> rfl
    · apply ih _ hn2.2 hl2
      intro p hp
      have hne : p ≠ o := fun e => hn2.1 (e ▸ hp)
      rw [← h p (List.mem_cons_of_mem _ hp)]
      simp only [is_on, plot_screen_other s o p hne]

theorem mem_row_cells (x y byte dy o : Nat) :
    o ∈ row_cells x y byte dy ↔
      ∃ dx, dx < 8 ∧ bit_at byte (7 - dx) = true ∧ o = cell x y dx dy := by
  simp only [row_cells, List.mem_map, List.mem_filter, List.mem_range]
  constructor
  · rintro ⟨dx, ⟨h1, h2⟩, h3⟩
    exact ⟨dx, h1, h2, h3.symm⟩
  · rintro ⟨dx, h1, h2, h3⟩
    exact ⟨dx, ⟨h1, h2⟩, h3.symm⟩

theorem mem_sprite_cells (memory : Nat → Nat) (index x y : Nat) (rows : List Nat) (o : Nat) :
    o ∈ sprite_cells memory index x y rows ↔
      ∃ dx, dx < 8 ∧ ∃ dy, dy ∈ rows ∧ bit_at (memory (index + dy)) (7 - dx) = true ∧
        o = cell x y dx dy := by
  induction rows with
  | nil => simp [sprite_cells]
  | cons d rows ih =>
    rw [sprite_cells, List.mem_append, ih, mem_row_cells]
    constructor
    · rintro (⟨dx, h1, h2, h3⟩ | ⟨dx, h1, dy, h2, h3, h4⟩)
      · exact ⟨dx, h1, d, List.mem_cons_self _ _, h2, h3⟩
      · exact ⟨dx, h1, dy, List.mem_cons_of_mem _ h2, h3, h4⟩
    · rintro ⟨dx, h1, dy, h2, h3, h4⟩
      rcases List.mem_cons.mp h2 with e | hm
      · subst e
        exact Or.inl ⟨dx, h1, h3, h4⟩
      · exact Or.inr ⟨dx, h1, dy, hm, h3, h4⟩

theorem cell_inj (x y dx dy dx' dy' : Nat) (h1 : dx < 8) (h2 : dx' < 8) (h3 : dy < 32)
    (h4 : dy' < 32) (h : cell x y dx dy = cell x y dx' dy') : dx = dx' ∧ dy = dy' := by
  unfold cell WIDTH HEIGHT at h
  omega

theorem nodup_row_cells (x y byte dy : Nat) : (row_cells x y byte dy).Nodup := by
  unfold row_cells
  apply List.Nodup.map_on
  · intro a ha b hb hab
    have ha2 := List.mem_range.mp (List.mem_filter.mp ha).1
    have hb2 := List.mem_range.mp (List.mem_filter.mp hb).1
    unfold cell WIDTH HEIGHT at hab
    omega
  · exact List.Nodup.filter _ (List.nodup_range 8)

theorem nodup_sprite_cells (memory : Nat → Nat) (index x y : Nat) (rows : List Nat)
    (hn : rows.Nodup) (hb : ∀ dy ∈ rows, dy < 32) :
    (sprite_cells memory index x y rows).Nodup := by
  induction rows with
  | nil => exact List.nodup_nil
  | cons d rows ih =>
    have hn2 := List.nodup_cons.mp hn
    rw [sprite_cells, List.nodup_append]
    refine ⟨nodup_row_cells _ _ _ _, ih hn2.2 (fun dy hd => hb dy (List.mem_cons_of_mem _ hd)), ?_⟩
    intro o ho1 ho2
    obtain ⟨dx, h1, _, h3⟩ := (mem_row_cells _ _ _ _ _).mp ho1
    obtain ⟨dx', h1', dy', h2', _, h4'⟩ := (mem_sprite_cells _ _ _ _ _ _).mp ho2
    have hd := hb d (List.mem_cons_self _ _)
    have hd' := hb dy' (List.mem_cons_of_mem _ h2')
    have := cell_inj x y dx d dx' dy' h1 h1' hd hd' (h3 ▸ h4')
    exact hn2.1 (this.2 ▸ h2')

theorem exec_drw (r : Nat) (s : Chip8) (X Y N : Nat) (hX : X ≤ 0xF) (hY : Y ≤ 0xF)
    (hN : N ≤ 0xF) (hi : s.instruction = 0xD000 + 0x100 * X + 0x10 * Y + N)
    (hb : ∀ dy, dy < N → s.index + dy < MEMORY_SIZE) :
    Chip8.execute_instruction r s =
      .ok (paint (s.set_vf 0)
        (sprite_cells s.memory s.index (s.registers X) (s.registers Y) (List.range N))) := by
  have h12 : s.instruction >>> 12 = 0xD := by rw [Chip8.opclass_eq]; omega
  have hn : s.extract_n = N := by rw [Chip8.extract_n_eq]; omega
  have hx : s.extract_x = X := by rw [Chip8.extract_x_eq]; omega
  have hy : s.extract_y = Y := by rw [Chip8.extract_y_eq]; omega
  have h1 : Chip8.execute_instruction r s = s.drw_vx_vy_n := by
    simp [Chip8.execute_instruction, h12]
  rw [h1]
  unfold Chip8.drw_vx_vy_n
  simp only [hn, Chip8.vx, Chip8.vy, hx, hy]
  rw [foldlM_drw_row]
  · rfl
  · intro dy hd
    exact hb dy (List.mem_range.mp hd)

theorem sprite_covers_iff (s : Chip8) (X Y N cx cy : Nat) :
    sprite_covers s X Y N cx cy ↔
      cx < WIDTH ∧ cy < HEIGHT ∧
        cx + cy * WIDTH ∈
          sprite_cells s.memory s.index (s.registers X) (s.registers Y) (List.range N) := by
  rw [mem_sprite_cells]
  unfold sprite_covers
  constructor
  · rintro ⟨dx, h1, dy, h2, h3, h4, h5⟩
    refine ⟨?_, ?_, dx, h1, dy, List.mem_range.mpr h2, h3, ?_⟩
    · rw [h4]; exact Nat.mod_lt _ (by decide)
    · rw [h5]; exact Nat.mod_lt _ (by decide)
    · rw [h4, h5]; rfl
  · rintro ⟨hcx, hcy, dx, h1, dy, h2, h3, h4⟩
    refine ⟨dx, h1, dy, List.mem_range.mp h2, h3, ?_⟩
    unfold cell WIDTH HEIGHT at h4
    unfold WIDTH at hcx
    unfold HEIGHT at hcy
    unfold WIDTH HEIGHT
    omega

theorem nodup_drawn_cells (memory : Nat → Nat) (index x y N : Nat) (hN : N ≤ 0xF) :
    (sprite_cells memory index x y (List.range N)).Nodup := by
  apply nodup_sprite_cells _ _ _ _ _ (List.nodup_range N)
  intro dy hd
  have := List.mem_range.mp hd
  omega

/-- The machine after a successful draw differs from the one before only in the
framebuffer and VF, so the same instruction draws the same cells again. -/
theorem drawn_cells_stable (s : Chip8) (X Y N : Nat) (hX : X < 0xF) (hY : Y < 0xF)
    (l : List Nat) :
    sprite_cells (paint (s.set_vf 0) l).memory (paint (s.set_vf 0) l).index
        ((paint (s.set_vf 0) l).registers X) ((paint (s.set_vf 0) l).registers Y) (List.range N) =
      sprite_cells s.memory s.index (s.registers X) (s.registers Y) (List.range N) := by
  have hX2 : X ≠ 0xF := by omega
  have hY2 : Y ≠ 0xF := by omega
  rw [paint_memory, paint_index, paint_registers _ _ _ hX2, paint_registers _ _ _ hY2]
  show sprite_cells s.memory s.index (setAt s.registers 0xF (0 % U8) X)
    (setAt s.registers 0xF (0 % U8) Y) (List.range N) = _
  rw [setAt_other _ _ _ _ hX2, setAt_other _ _ _ _ hY2]

theorem set_vf_screen (s : Chip8) (v : Nat) : (s.set_vf v).screen = s.screen := rfl

theorem exec_drw_again (r : Nat) (s : Chip8) (X Y N : Nat) (hX : X < 0xF) (hY : Y < 0xF)
    (hN : N ≤ 0xF) (hi : s.instruction = 0xD000 + 0x100 * X + 0x10 * Y + N)
    (hb : ∀ dy, dy < N → s.index + dy < MEMORY_SIZE) (l : List Nat) :
    Chip8.execute_instruction r (paint (s.set_vf 0) l) =
      .ok (paint ((paint (s.set_vf 0) l).set_vf 0)
        (sprite_cells s.memory s.index (s.registers X) (s.registers Y) (List.range N))) := by
  rw [exec_drw r _ X Y N (Nat.le_of_lt hX) (Nat.le_of_lt hY) hN, drawn_cells_stable s X Y N hX hY]
  · rw [paint_instruction]; exact hi
  · intro dy hd
    rw [paint_index]
    exact hb dy hd

theorem paint_twice_screen (s : Chip8) (l : List Nat) (hnd : l.Nodup) (o : Nat) :
    (paint ((paint (s.set_vf 0) l).set_vf 0) l).screen.screen o =
      if o ∈ l then (if is_on s.screen o then ACTIVE_COLOR else 0) else s.screen.screen o := by
  by_cases hm : o ∈ l
  · have h1 := paint_screen_mem (s.set_vf 0) l o hnd hm
    rw [set_vf_screen] at h1
    rw [if_pos hm, paint_screen_mem _ _ _ hnd hm, set_vf_screen]
    simp only [is_on, h1]
    by_cases hv : s.screen.screen o = ACTIVE_COLOR
    · simp [hv, ACTIVE_COLOR]
    · simp [hv]
  · rw [if_neg hm, paint_screen_not_mem _ _ _ hm, set_vf_screen, paint_screen_not_mem _ _ _ hm,
      set_vf_screen]

/-- C4: for every DXYN with X and Y other than 0xF whose sprite read is in
bounds, executing the draw twice in succession succeeds both times and leaves
every framebuffer cell in the on/off state it had before the first draw; a cell
that held one of the two stored values (0 or ACTIVE_COLOR) holds that same value
again. -/
theorem drw_twice_restores (r1 r2 : Nat) (s : Chip8) (X Y N : Nat) (hX : X < 0xF)
    (hY : Y < 0xF) (hN : N ≤ 0xF) (hi : s.instruction = 0xD000 + 0x100 * X + 0x10 * Y + N)
    (hb : ∀ dy, dy < N → s.index + dy < MEMORY_SIZE) :
    ∃ s1 s2, Chip8.execute_instruction r1 s = .ok s1 ∧
      Chip8.execute_instruction r2 s1 = .ok s2 ∧
      ∀ o, is_on s2.screen o = is_on s.screen o ∧
        (s.screen.screen o = 0 ∨ s.screen.screen o = ACTIVE_COLOR →
          s2.screen.screen o = s.screen.screen o) := by
  have e1 := exec_drw r1 s X Y N (Nat.le_of_lt hX) (Nat.le_of_lt hY) hN hi hb
  have e2 := exec_drw_again r2 s X Y N hX hY hN hi hb
    (sprite_cells s.memory s.index (s.registers X) (s.registers Y) (List.range N))
  have hnd := nodup_drawn_cells s.memory s.index (s.registers X) (s.registers Y) N hN
  refine ⟨_, _, e1, e2, ?_⟩
  intro o
  have h := paint_twice_screen s _ hnd o
  simp only [is_on]
  rw [h]
  by_cases hm : o ∈ sprite_cells s.memory s.index (s.registers X) (s.registers Y) (List.range N)
  · rw [if_pos hm]
    by_cases hv : s.screen.screen o = ACTIVE_COLOR
    · simp [is_on, hv]
    · refine ⟨by simp [is_on, hv, ACTIVE_COLOR], ?_⟩
      rintro (h0 | h0)
      · simp [is_on, h0, ACTIVE_COLOR]
      · exact absurd h0 hv
  · rw [if_neg hm]
    exact ⟨rfl, fun _ => rfl⟩

/-- An instance of C4: the sprite row 0xC0 drawn twice at (0, 0) over a
framebuffer whose cell (0, 0) is lit. -/
theorem drw_twice_restores_witness :
    ∃ s1 s2,
      Chip8.execute_instruction 0
        (draw_machine 0xD011 0x300 mem_two_pixels (fun _ => 0) screen_corner_on) = .ok s1 ∧
      Chip8.execute_instruction 0 s1 = .ok s2 ∧
      ∀ o, is_on s2.screen o =
          is_on (draw_machine 0xD011 0x300 mem_two_pixels (fun _ => 0) screen_corner_on).screen o ∧
        ((draw_machine 0xD011 0x300 mem_two_pixels (fun _ => 0) screen_corner_on).screen.screen o = 0
          ∨ (draw_machine 0xD011 0x300 mem_two_pixels (fun _ => 0) screen_corner_on).screen.screen o
            = ACTIVE_COLOR →
          s2.screen.screen o =
            (draw_machine 0xD011 0x300 mem_two_pixels (fun _ => 0) screen_corner_on).screen.screen o) :=
  drw_twice_restores 0 0 (draw_machine 0xD011 0x300 mem_two_pixels (fun _ => 0) screen_corner_on)
    0 1 1 (by decide) (by decide) (by decide) (by decide)
    (by intro dy hd; simp only [draw_machine, MEMORY_SIZE]; omega)

/-- C5: for every DXYN with X and Y other than 0xF whose sprite read is in
bounds and whose targeted cells are all off beforehand, the draw succeeds,
turns on exactly the cells ((VX + dx) mod 64, (VY + dy) mod 32) under a set
sprite bit, leaves every other cell unchanged and sets VF to 0; repeating the
draw succeeds, turns those cells off again, leaves the others unchanged, and
sets VF to 1 when the sprite has a set bit. -/
theorem drw_on_unlit_cells (r1 r2 : Nat) (s : Chip8) (X Y N : Nat) (hX : X < 0xF)
    (hY : Y < 0xF) (hN : N ≤ 0xF) (hi : s.instruction = 0xD000 + 0x100 * X + 0x10 * Y + N)
    (hb : ∀ dy, dy < N → s.index + dy < MEMORY_SIZE)
    (hoff : ∀ cx cy, sprite_covers s X Y N cx cy → is_on s.screen (cx + cy * WIDTH) = false) :
    ∃ s1 s2, Chip8.execute_instruction r1 s = .ok s1 ∧
      Chip8.execute_instruction r2 s1 = .ok s2 ∧
      (∀ cx cy, cx < WIDTH → cy < HEIGHT → sprite_covers s X Y N cx cy →
        s1.screen.screen (cx + cy * WIDTH) = ACTIVE_COLOR ∧
        s2.screen.screen (cx + cy * WIDTH) = 0) ∧
      (∀ cx cy, cx < WIDTH → cy < HEIGHT → ¬ sprite_covers s X Y N cx cy →
        s1.screen.screen (cx + cy * WIDTH) = s.screen.screen (cx + cy * WIDTH) ∧
        s2.screen.screen (cx + cy * WIDTH) = s.screen.screen (cx + cy * WIDTH)) ∧
      s1.registers 0xF = 0 ∧
      ((∃ cx cy, sprite_covers s X Y N cx cy) → s2.registers 0xF = 1) := by
  have e1 := exec_drw r1 s X Y N (Nat.le_of_lt hX) (Nat.le_of_lt hY) hN hi hb
  have e2 := exec_drw_again r2 s X Y N hX hY hN hi hb
    (sprite_cells s.memory s.index (s.registers X) (s.registers Y) (List.range N))
  have hnd := nodup_drawn_cells s.memory s.index (s.registers X) (s.registers Y) N hN
  have hcov := sprite_covers_iff s X Y N
  have hoff2 : ∀ p ∈ sprite_cells s.memory s.index (s.registers X) (s.registers Y)
      (List.range N), is_on s.screen p = false := by
    intro p hp
    obtain ⟨dx, h1, dy, h2, h3, h4⟩ := (mem_sprite_cells _ _ _ _ _ _).mp hp
    have := hoff ((s.registers X + dx) % WIDTH) ((s.registers Y + dy) % HEIGHT)
      ⟨dx, h1, dy, List.mem_range.mp h2, h3, rfl, rfl⟩
    rw [h4]
    exact this
  generalize sprite_cells s.memory s.index (s.registers X) (s.registers Y) (List.range N) = l
    at e1 e2 hnd hcov hoff2
  refine ⟨_, _, e1, e2, ?_, ?_, ?_, ?_⟩
  · intro cx cy _ _ hc
    have hm := ((hcov cx cy).mp hc).2.2
    have h0 := hoff2 _ hm
    constructor
    · rw [paint_screen_mem _ _ _ hnd hm, set_vf_screen, h0]; rfl
    · rw [paint_twice_screen s l hnd, if_pos hm, h0]; rfl
  · intro cx cy hcx hcy hc
    have hm : cx + cy * WIDTH ∉ l := fun hm => hc ((hcov cx cy).mpr ⟨hcx, hcy, hm⟩)
    constructor
    · rw [paint_screen_not_mem _ _ _ hm, set_vf_screen]
    · rw [paint_twice_screen s l hnd, if_neg hm]
  · by_cases hl : l = []
    · subst hl
      show setAt s.registers 0xF (0 % U8) 0xF = 0
      rw [setAt_same]
      rfl
    · exact paint_flag (s.set_vf 0) l false hnd hl hoff2
  · rintro ⟨cx, cy, hc⟩
    have hm := ((hcov cx cy).mp hc).2.2
    have hl : l ≠ [] := List.ne_nil_of_mem hm
    apply paint_flag _ l true hnd hl
    intro p hp
    have h0 := hoff2 p hp
    rw [set_vf_screen]
    simp only [is_on] at h0 ⊢
    rw [paint_screen_mem _ _ _ hnd hp, set_vf_screen]
    simp only [is_on, h0]
    rfl

/-- The concrete scenario of C5: one sprite row 0xFF drawn at origin (0, 0) on
a blank framebuffer turns on cells (0,0) to (7,0) with VF = 0, and the repeat
turns all eight off with VF = 1. -/
theorem drw_on_unlit_cells_witness :
    ∃ s1 s2,
      Chip8.execute_instruction 0
        (draw_machine 0xD001 0x300 mem_full_row (fun _ => 0) (fun _ => 0)) = .ok s1 ∧
      Chip8.execute_instruction 0 s1 = .ok s2 ∧
      (∀ cx, cx < 8 → s1.screen.screen (cx + 0 * WIDTH) = ACTIVE_COLOR ∧
        s2.screen.screen (cx + 0 * WIDTH) = 0) ∧
      s1.registers 0xF = 0 ∧ s2.registers 0xF = 1 := by
  obtain ⟨s1, s2, e1, e2, hon, _, hf1, hf2⟩ :=
    drw_on_unlit_cells 0 0 (draw_machine 0xD001 0x300 mem_full_row (fun _ => 0) (fun _ => 0))
      0 0 1 (by decide) (by decide) (by decide) (by decide)
      (by intro dy hd; simp only [draw_machine, MEMORY_SIZE]; omega)
      (fun _ _ _ => rfl)
  have hcov : ∀ cx, cx < 8 →
      sprite_covers (draw_machine 0xD001 0x300 mem_full_row (fun _ => 0) (fun _ => 0))
        0 0 1 cx 0 := by
    intro cx hcx
    refine ⟨cx, hcx, 0, by decide, ?_, ?_, by decide⟩
    · interval_cases cx <;> decide
    · simp only [draw_machine, WIDTH]; omega
  refine ⟨s1, s2, e1, e2, ?_, hf1, hf2 ⟨0, 0, hcov 0 (by decide)⟩⟩
  intro cx hcx
  exact hon cx 0 (by unfold WIDTH; omega) (by decide) (hcov cx hcx)

/-! ## Cycles -/

theorem Chip8.fetch_eq (s : Chip8) (h : s.pc + 1 < MEMORY_SIZE) :
    s.fetch_instruction = .ok { s with instruction := word_at s.memory s.pc } := by
  unfold Chip8.fetch_instruction
  rw [if_pos ⟨by omega, h⟩]
  rfl

theorem Chip8.cycle_eq (r : Nat) (s : Chip8) (h : s.pc + 1 < MEMORY_SIZE) :
    Chip8.cycle r s =
      match Chip8.execute_instruction r
          (Chip8.increment_pc { s with instruction := word_at s.memory s.pc }) with
      | .ok s2 => .ok s2.decrement_timers
      | .error e => .error e := by
  unfold Chip8.cycle
  rw [Chip8.fetch_eq s h]
  cases hx : Chip8.execute_instruction r
      (Chip8.increment_pc { s with instruction := word_at s.memory s.pc }) <;>
    simp [bind, Except.bind, pure, Except.pure, hx]

theorem Chip8.cycle_fetch_error (r : Nat) (s : Chip8) (h : ¬ s.pc + 1 < MEMORY_SIZE) :
    Chip8.cycle r s = .error .out_of_range := by
  unfold Chip8.cycle Chip8.fetch_instruction
  rw [if_neg (fun hh => h hh.2)]
  rfl

theorem Chip8.decrement_timers_pc (s : Chip8) : s.decrement_timers.pc = s.pc := by
  simp only [Chip8.decrement_timers]
  split_ifs <;> rfl

theorem Chip8.decrement_timers_stack (s : Chip8) : s.decrement_timers.stack = s.stack := by
  simp only [Chip8.decrement_timers]
  split_ifs <;> rfl

theorem Chip8.decrement_timers_registers (s : Chip8) :
    s.decrement_timers.registers = s.registers := by
  simp only [Chip8.decrement_timers]
  split_ifs <;> rfl

theorem Chip8.decrement_timers_memory (s : Chip8) : s.decrement_timers.memory = s.memory := by
  simp only [Chip8.decrement_timers]
  split_ifs <;> rfl

theorem Chip8.decrement_timers_keys (s : Chip8) :
    s.decrement_timers.keys_pressed = s.keys_pressed := by
  simp only [Chip8.decrement_timers]
  split_ifs <;> rfl

/-! ## Call and return -/

theorem exec_call (r : Nat) (t : Chip8) (h12 : t.instruction >>> 12 = 0x2) :
    Chip8.execute_instruction r t = t.call_nnn := by
  simp [Chip8.execute_instruction, h12]

theorem exec_ret (r : Nat) (t : Chip8) (h12 : t.instruction >>> 12 = 0x0)
    (hnn : t.extract_nn = 0xEE) :
    Chip8.execute_instruction r t = t.ret := by
  simp [Chip8.execute_instruction, h12, hnn]

theorem exec_call_fetched (r : Nat) (s : Chip8) (h : at_call s) :
    Chip8.execute_instruction r
        (Chip8.increment_pc { s with instruction := word_at s.memory s.pc }) =
      Chip8.call_nnn (Chip8.increment_pc { s with instruction := word_at s.memory s.pc }) := by
  apply exec_call
  show word_at s.memory s.pc >>> 12 = 2
  rw [Nat.shiftRight_eq_div_pow]
  exact h.2

theorem cycle_call (r : Nat) (s : Chip8) (h : at_call s)
    (hsp : s.stack.stack_pointer < STACK_SIZE) :
    ∃ s', Chip8.cycle r s = .ok s' ∧ s'.pc = word_at s.memory s.pc % 0x1000 ∧
      s'.stack.stack_pointer = s.stack.stack_pointer + 1 ∧
      s'.stack.stack = setAt s.stack.stack s.stack.stack_pointer (s.pc + 2) := by
  obtain ⟨h1, h2⟩ := h
  have hpc : (s.pc + 2) % U16 % U16 = s.pc + 2 := by
    unfold MEMORY_SIZE at h1; unfold U16; omega
  have hs : (s.stack.stack_pointer + 1) % USIZE = s.stack.stack_pointer + 1 := by
    unfold STACK_SIZE at hsp; unfold USIZE; omega
  rw [Chip8.cycle_eq r s h1, exec_call_fetched r s ⟨h1, h2⟩]
  simp only [Chip8.call_nnn, Stack.push, Chip8.increment_pc, if_pos hsp]
  refine ⟨_, rfl, ?_, ?_, ?_⟩
  · rw [Chip8.decrement_timers_pc]
    show Chip8.extract_nnn _ = _
    rw [Chip8.extract_nnn_eq]
  · rw [Chip8.decrement_timers_stack]
    exact hs
  · rw [Chip8.decrement_timers_stack]
    show setAt s.stack.stack s.stack.stack_pointer ((s.pc + 2) % U16 % U16) = _
    rw [hpc]

theorem cycle_call_full (r : Nat) (s : Chip8) (h : at_call s)
    (hsp : ¬ s.stack.stack_pointer < STACK_SIZE) :
    Chip8.cycle r s = .error .out_of_range := by
  obtain ⟨h1, h2⟩ := h
  rw [Chip8.cycle_eq r s h1, exec_call_fetched r s ⟨h1, h2⟩]
  simp only [Chip8.call_nnn, Stack.push, Chip8.increment_pc, if_neg hsp]

theorem exec_ret_fetched (r : Nat) (s : Chip8) (h : at_ret s) :
    Chip8.execute_instruction r
        (Chip8.increment_pc { s with instruction := word_at s.memory s.pc }) =
      Chip8.ret (Chip8.increment_pc { s with instruction := word_at s.memory s.pc }) := by
  obtain ⟨_, h2⟩ := h
  apply exec_ret
  · show word_at s.memory s.pc >>> 12 = 0
    rw [h2]; rfl
  · rw [Chip8.extract_nn_eq]
    show word_at s.memory s.pc % 256 = 0xEE
    rw [h2]

theorem cycle_ret (r : Nat) (s : Chip8) (h : at_ret s) (h0 : 0 < s.stack.stack_pointer)
    (hsp : s.stack.stack_pointer ≤ STACK_SIZE) :
    ∃ s', Chip8.cycle r s = .ok s' ∧ s'.pc = s.stack.stack (s.stack.stack_pointer - 1) ∧
      s'.stack.stack_pointer = s.stack.stack_pointer - 1 ∧
      s'.stack.stack = s.stack.stack := by
  have hs : ¬ s.stack.stack_pointer = 0 := by omega
  have hlt : s.stack.stack_pointer - 1 < STACK_SIZE := by omega
  rw [Chip8.cycle_eq r s h.1, exec_ret_fetched r s h]
  simp only [Chip8.ret, Stack.pop, Chip8.increment_pc, if_neg hs, if_pos hlt]
  refine ⟨_, rfl, ?_, ?_, ?_⟩
  · rw [Chip8.decrement_timers_pc]
  · rw [Chip8.decrement_timers_stack]
  · rw [Chip8.decrement_timers_stack]

theorem cycle_ret_empty (r : Nat) (s : Chip8) (h : at_ret s) (h0 : s.stack.stack_pointer = 0) :
    Chip8.cycle r s = .error .out_of_range := by
  have hs : ¬ USIZE - 1 < STACK_SIZE := by decide
  rw [Chip8.cycle_eq r s h.1, exec_ret_fetched r s h]
  simp only [Chip8.ret, Stack.pop, Chip8.increment_pc, if_pos h0, if_neg hs]

theorem run_ops_append (r : Nat) (l1 l2 : List Chip8) (st : Stack) :
    run_ops r st (l1 ++ l2) =
      match run_ops r st l1 with
      | .error e => .error e
      | .ok (p1, st1) =>
        match run_ops r st1 l2 with
        | .error e => .error e
        | .ok (p2, st2) => .ok (p1 ++ p2, st2) := by
  induction l1 generalizing st with
  | nil =>
    show run_ops r st l2 = _
    simp only [run_ops]
    cases run_ops r st l2 with
    | error e => rfl
    | ok v => rfl
  | cons a l1 ih =>
    have e1 : run_ops r st (a :: l1 ++ l2) =
        match Chip8.cycle r { a with stack := st } with
        | .error e => .error e
        | .ok s' =>
          match run_ops r s'.stack (l1 ++ l2) with
          | .error e => .error e
          | .ok (pcs, st') => .ok (s'.pc :: pcs, st') := rfl
    have e2 : run_ops r st (a :: l1) =
        match Chip8.cycle r { a with stack := st } with
        | .error e => .error e
        | .ok s' =>
          match run_ops r s'.stack l1 with
          | .error e => .error e
          | .ok (pcs, st') => .ok (s'.pc :: pcs, st') := rfl
    rw [e1, e2]
    cases Chip8.cycle r { a with stack := st } with
    | error e => rfl
    | ok s' =>
      simp only []
      rw [ih]
      cases run_ops r s'.stack l1 with
      | error e => rfl
      | ok v =>
        obtain ⟨p1, st1⟩ := v
        simp only []
        cases run_ops r st1 l2 with
        | error e => rfl
        | ok w => rfl

theorem run_ops_single (r : Nat) (a : Chip8) (st : Stack) (s' : Chip8)
    (h : Chip8.cycle r { a with stack := st } = .ok s') :
    run_ops r st [a] = .ok ([s'.pc], s'.stack) := by
  simp only [run_ops, h]

theorem calls_then_rets (r : Nat) (calls : List Chip8) :
    ∀ (rets : List Chip8) (st : Stack), rets.length = calls.length →
      st.stack_pointer + calls.length ≤ STACK_SIZE →
      (∀ a ∈ calls, at_call a) → (∀ a ∈ rets, at_ret a) →
      ∃ pcs1 st1 pcs2 st2, run_ops r st calls = .ok (pcs1, st1) ∧
        run_ops r st1 rets = .ok (pcs2, st2) ∧
        pcs1 = calls.map (fun a => word_at a.memory a.pc % 0x1000) ∧
        pcs2 = (calls.map (fun a => a.pc + 2)).reverse ∧
        st2.stack_pointer = st.stack_pointer ∧
        ∀ i, i < st.stack_pointer → st2.stack i = st.stack i := by
  induction calls with
  | nil =>
    intro rets st hlen _ _ _
    have hr : rets = [] := List.length_eq_zero.mp hlen
    subst hr
    exact ⟨[], st, [], st, rfl, rfl, rfl, rfl, rfl, fun _ _ => rfl⟩
  | cons a cs ih =>
    intro rets st hlen hsp hc hr
    rcases List.eq_nil_or_concat rets with hnil | ⟨rs, q, hq⟩
    · subst hnil
      simp at hlen
    · rw [List.concat_eq_append] at hq
      subst hq
      have hlen2 : rs.length = cs.length := by
        simp only [List.length_append, List.length_cons, List.length_nil] at hlen
        omega
      have hsp1 : st.stack_pointer < STACK_SIZE := by
        simp only [List.length_cons] at hsp
        omega
      obtain ⟨s', e1, hpc1, hsp', hstk'⟩ :=
        cycle_call r { a with stack := st } (hc a (List.mem_cons_self _ _)) hsp1
      have hsp2 : s'.stack.stack_pointer + cs.length ≤ STACK_SIZE := by
        rw [hsp']
        simp only [List.length_cons] at hsp
        show st.stack_pointer + 1 + cs.length ≤ STACK_SIZE
        omega
      obtain ⟨pcs1, st1, pcs2, st2, f1, f2, g1, g2, g3, g4⟩ :=
        ih rs s'.stack hlen2 hsp2 (fun b hb => hc b (List.mem_cons_of_mem _ hb))
          (fun b hb => hr b (List.mem_append_left _ hb))
      have hq : at_ret ({ q with stack := st2 } : Chip8) :=
        hr q (List.mem_append_right _ (List.mem_singleton_self q))
      have hst2 : st2.stack_pointer = st.stack_pointer + 1 := by rw [g3, hsp']
      obtain ⟨s'', e2, hpc2, hsp'', hstk''⟩ :=
        cycle_ret r { q with stack := st2 } hq
          (by show 0 < st2.stack_pointer; omega)
          (by show st2.stack_pointer ≤ STACK_SIZE; omega)
      refine ⟨s'.pc :: pcs1, st1, pcs2 ++ [s''.pc], s''.stack, ?_, ?_, ?_, ?_, ?_, ?_⟩
      · simp only [run_ops, e1, f1]
      · rw [run_ops_append, f2]
        simp only [run_ops_single r q st2 s'' e2]
      · rw [List.map_cons, g1, hpc1]
      · rw [List.map_cons, List.reverse_cons, g2]
        congr 2
        rw [hpc2]
        show st2.stack (st2.stack_pointer - 1) = a.pc + 2
        rw [hst2, Nat.add_sub_cancel, g4 _ (by rw [hsp']; exact Nat.lt_succ_self _), hstk']
        exact setAt_same _ _ _
      · rw [hsp'']
        show st2.stack_pointer - 1 = st.stack_pointer
        omega
      · intro i hi
        rw [hstk'']
        show st2.stack i = st.stack i
        rw [g4 i (by rw [hsp']; exact Nat.lt_succ_of_lt hi), hstk']
        exact setAt_other _ _ _ _ (by show i ≠ st.stack_pointer; omega)

/-- C6: starting from an empty call stack, for every k at most 16, k call
cycles (each fetching a 2NNN at its own address p) followed by k return cycles
(each fetching 00EE) all succeed, each call jumps to its NNN, the returns set
the program counter to the p + 2 of the matching calls in last-in first-out
order, and the stack is empty again afterwards. -/
theorem call_return_lifo (r : Nat) (st : Stack) (calls rets : List Chip8)
    (hst : st.stack_pointer = 0) (hk : calls.length ≤ STACK_SIZE)
    (hlen : rets.length = calls.length) (hc : ∀ a ∈ calls, at_call a)
    (hr : ∀ a ∈ rets, at_ret a) :
    ∃ pcs1 st1 pcs2 st2, run_ops r st calls = .ok (pcs1, st1) ∧
      run_ops r st1 rets = .ok (pcs2, st2) ∧
      pcs1 = calls.map (fun a => word_at a.memory a.pc % 0x1000) ∧
      pcs2 = (calls.map (fun a => a.pc + 2)).reverse ∧
      st2.stack_pointer = 0 := by
  obtain ⟨pcs1, st1, pcs2, st2, f1, f2, g1, g2, g3, _⟩ :=
    calls_then_rets r calls rets st hlen (by rw [hst]; omega) hc hr
  exact ⟨pcs1, st1, pcs2, st2, f1, f2, g1, g2, by rw [g3, hst]⟩

/-- An instance of C6: calls fetched at 0x200 and 0x300, then two returns; the
returns land on 0x302 and then 0x202. -/
theorem call_return_lifo_witness :
    ∃ pcs1 st1 pcs2 st2,
      run_ops 0 Chip8.new.stack [machine_at 0x200 0x23 0x00, machine_at 0x300 0x24 0x00]
        = .ok (pcs1, st1) ∧
      run_ops 0 st1 [machine_at 0x400 0x00 0xEE, machine_at 0x302 0x00 0xEE] = .ok (pcs2, st2) ∧
      pcs1 = [0x300, 0x400] ∧ pcs2 = [0x302, 0x202] ∧ st2.stack_pointer = 0 := by
  obtain ⟨pcs1, st1, pcs2, st2, f1, f2, g1, g2, g3⟩ :=
    call_return_lifo 0 Chip8.new.stack
      [machine_at 0x200 0x23 0x00, machine_at 0x300 0x24 0x00]
      [machine_at 0x400 0x00 0xEE, machine_at 0x302 0x00 0xEE] rfl (by decide) rfl
      (by
        intro a ha
        simp only [List.mem_cons, List.mem_singleton, List.not_mem_nil, or_false] at ha
        rcases ha with rfl | rfl <;> exact ⟨by decide, by decide⟩)
      (by
        intro a ha
        simp only [List.mem_cons, List.mem_singleton, List.not_mem_nil, or_false] at ha
        rcases ha with rfl | rfl <;> exact ⟨by decide, by decide⟩)
  refine ⟨pcs1, st1, pcs2, st2, f1, f2, ?_, ?_, g3⟩
  · rw [g1]; decide
  · rw [g2]; decide

/-! ## The call stack stays within its sixteen slots -/

theorem paint_stack (s : Chip8) (l : List Nat) : (paint s l).stack = s.stack := by
  induction l generalizing s with
  | nil => rfl
  | cons o l ih => simp only [paint, List.foldl_cons] at ih ⊢; rw [ih]; rfl

theorem Chip8.skip_if_stack (s : Chip8) (c : Bool) : (s.skip_if c).stack = s.stack := by
  cases c <;> rfl

theorem Chip8.ld_vx_k_stack (s : Chip8) : s.ld_vx_k.stack = s.stack := by
  unfold Chip8.ld_vx_k
  split <;> rfl

theorem Chip8.drw_row_stack (x y : Nat) (s s' : Chip8) (dy : Nat)
    (h : Chip8.drw_row x y s dy = .ok s') : s'.stack = s.stack := by
  unfold Chip8.drw_row at h
  split at h
  · rw [foldl_drw_pixel] at h
    cases h
    exact paint_stack _ _
  · cases h

theorem Chip8.foldlM_drw_row_stack (x y : Nat) (rows : List Nat) (s s' : Chip8)
    (h : rows.foldlM (Chip8.drw_row x y) s = .ok s') : s'.stack = s.stack := by
  induction rows generalizing s with
  | nil => cases h; rfl
  | cons dy rows ih =>
    rw [List.foldlM_cons] at h
    cases h1 : Chip8.drw_row x y s dy with
    | error e => rw [h1] at h; cases h
    | ok s1 =>
      rw [h1] at h
      rw [ih s1 h, Chip8.drw_row_stack x y s s1 dy h1]

theorem Chip8.drw_stack (s s' : Chip8) (h : s.drw_vx_vy_n = .ok s') : s'.stack = s.stack :=
  Chip8.foldlM_drw_row_stack s.vx s.vy (List.range s.extract_n) (s.set_vf 0) s' h

theorem Chip8.skp_vx_stack (s s' : Chip8) (h : s.skp_vx = .ok s') : s'.stack = s.stack := by
  unfold Chip8.skp_vx at h
  split at h
  · cases h; exact Chip8.skip_if_stack _ _
  · cases h

theorem Chip8.sknp_vx_stack (s s' : Chip8) (h : s.sknp_vx = .ok s') : s'.stack = s.stack := by
  unfold Chip8.sknp_vx at h
  split at h
  · cases h; exact Chip8.skip_if_stack _ _
  · cases h

theorem Chip8.store_at_stack (s s' : Chip8) (a v : Nat) (h : s.store_at a v = .ok s') :
    s'.stack = s.stack := by
  unfold Chip8.store_at at h
  split at h
  · cases h; rfl
  · cases h

theorem Chip8.ld_b_vx_stack (s s' : Chip8) (h : s.ld_b_vx = .ok s') : s'.stack = s.stack := by
  unfold Chip8.ld_b_vx at h
  cases h1 : s.store_at s.index (s.vx / 100) with
  | error e => rw [h1] at h; cases h
  | ok s1 =>
    rw [h1] at h
    simp only [bind, Except.bind] at h
    cases h2 : s1.store_at (s1.index + 1) (s1.vx / 10 % 10) with
    | error e => rw [h2] at h; cases h
    | ok s2 =>
      rw [h2] at h
      simp only at h
      rw [Chip8.store_at_stack _ _ _ _ h, Chip8.store_at_stack _ _ _ _ h2,
        Chip8.store_at_stack _ _ _ _ h1]

theorem Chip8.ld_mem_vx_stack (s s' : Chip8) (h : s.ld_mem_vx = .ok s') :
    s'.stack = s.stack := by
  unfold Chip8.ld_mem_vx at h
  simp only at h
  split at h
  · cases h
  · cases h; rfl

theorem Chip8.ld_vx_mem_stack (s s' : Chip8) (h : s.ld_vx_mem = .ok s') :
    s'.stack = s.stack := by
  unfold Chip8.ld_vx_mem at h
  simp only at h
  split at h
  · cases h
  · cases h; rfl

theorem Chip8.call_nnn_bound (s s' : Chip8) (h : s.call_nnn = .ok s') :
    s'.stack.stack_pointer ≤ STACK_SIZE := by
  unfold Chip8.call_nnn Stack.push at h
  split at h
  · rename_i st hst
    split at hst
    · rename_i hlt
      cases hst
      cases h
      show (s.stack.stack_pointer + 1) % USIZE ≤ STACK_SIZE
      unfold STACK_SIZE at hlt ⊢
      unfold USIZE
      omega
    · cases hst
  · cases h

theorem Chip8.ret_bound (s s' : Chip8) (h : s.ret = .ok s') :
    s'.stack.stack_pointer ≤ STACK_SIZE := by
  unfold Chip8.ret at h
  cases hp : s.stack.pop with
  | error e => rw [hp] at h; cases h
  | ok v =>
    obtain ⟨address, st⟩ := v
    rw [hp] at h
    cases h
    show st.stack_pointer ≤ STACK_SIZE
    unfold Stack.pop at hp
    simp only at hp
    by_cases h0 : s.stack.stack_pointer = 0
    · have hbig : ¬ USIZE - 1 < STACK_SIZE := by decide
      rw [if_pos h0, if_neg hbig] at hp
      cases hp
    · rw [if_neg h0] at hp
      by_cases hlt : s.stack.stack_pointer - 1 < STACK_SIZE
      · rw [if_pos hlt] at hp
        cases hp
        exact Nat.le_of_lt hlt
      · rw [if_neg hlt] at hp
        cases hp

theorem exec_stack_bound (r : Nat) (t t' : Chip8) (h : Chip8.execute_instruction r t = .ok t')
    (hb : t.stack.stack_pointer ≤ STACK_SIZE) : t'.stack.stack_pointer ≤ STACK_SIZE := by
  unfold Chip8.execute_instruction at h
  repeat' split at h
  all_goals first
    | exact Chip8.call_nnn_bound _ _ h
    | exact Chip8.ret_bound _ _ h
    | (rw [Chip8.drw_stack _ _ h]; exact hb)
    | (rw [Chip8.skp_vx_stack _ _ h]; exact hb)
    | (rw [Chip8.sknp_vx_stack _ _ h]; exact hb)
    | (rw [Chip8.ld_b_vx_stack _ _ h]; exact hb)
    | (rw [Chip8.ld_mem_vx_stack _ _ h]; exact hb)
    | (rw [Chip8.ld_vx_mem_stack _ _ h]; exact hb)
    | (cases h <;> exact hb)
    | (cases h; rw [Chip8.ld_vx_k_stack]; exact hb)
    | (cases h; simp only [Chip8.se_vx_nn, Chip8.sne_vx_nn, Chip8.se_vx_vy, Chip8.sne_vx_vy,
        Chip8.skip_if_stack]; exact hb)

theorem cycle_stack_bound (r : Nat) (s s' : Chip8) (h : Chip8.cycle r s = .ok s')
    (hb : s.stack.stack_pointer ≤ STACK_SIZE) : s'.stack.stack_pointer ≤ STACK_SIZE := by
  by_cases hf : s.pc + 1 < MEMORY_SIZE
  · rw [Chip8.cycle_eq r s hf] at h
    cases he : Chip8.execute_instruction r
        (Chip8.increment_pc { s with instruction := word_at s.memory s.pc }) with
    | error e => rw [he] at h; cases h
    | ok s2 =>
      rw [he] at h
      cases h
      rw [Chip8.decrement_timers_stack]
      exact exec_stack_bound r _ s2 he hb
  · rw [Chip8.cycle_fetch_error r s hf] at h
    cases h

theorem reachable_stack_bound (s : Chip8) (h : Reachable s) :
    s.stack.stack_pointer ≤ STACK_SIZE := by
  induction h with
  | construct => decide
  | load s rom _ ih => exact ih
  | keys s k _ ih => exact ih
  | reset s _ => exact Nat.zero_le _
  | cycle s s' r _ hc ih => exact cycle_stack_bound r s s' hc ih

theorem run_calls (r : Nat) (calls : List Chip8) :
    ∀ st : Stack, st.stack_pointer + calls.length ≤ STACK_SIZE → (∀ a ∈ calls, at_call a) →
      ∃ pcs st1, run_ops r st calls = .ok (pcs, st1) ∧
        st1.stack_pointer = st.stack_pointer + calls.length := by
  induction calls with
  | nil => intro st _ _; exact ⟨[], st, rfl, rfl⟩
  | cons a cs ih =>
    intro st hsp hc
    simp only [List.length_cons] at hsp
    obtain ⟨s', e1, _, hsp', _⟩ :=
      cycle_call r { a with stack := st } (hc a (List.mem_cons_self _ _))
        (by show st.stack_pointer < STACK_SIZE; omega)
    have hsp1 : s'.stack.stack_pointer = st.stack_pointer + 1 := hsp'
    obtain ⟨pcs, st1, f1, f2⟩ := ih s'.stack (by rw [hsp1]; omega)
      (fun b hb => hc b (List.mem_cons_of_mem _ hb))
    refine ⟨s'.pc :: pcs, st1, ?_, ?_⟩
    · simp only [run_ops, e1, f1]
    · rw [f2, hsp1, List.length_cons]; omega

/-- C7: from an empty call stack sixteen consecutive call cycles succeed and a
seventeenth fails with the out-of-range error; a return cycle on an empty stack
fails with the out-of-range error; `Stack::push` on a full stack and
`Stack::pop` on an empty one fail; and in every reachable machine state the
stack pointer is at most 16. -/
theorem stack_bounds_fatal :
    (∀ (r : Nat) (st : Stack) (calls : List Chip8), st.stack_pointer = 0 →
      calls.length = STACK_SIZE → (∀ a ∈ calls, at_call a) →
      ∃ pcs st1, run_ops r st calls = .ok (pcs, st1) ∧ st1.stack_pointer = STACK_SIZE ∧
        ∀ a, at_call a → Chip8.cycle r { a with stack := st1 } = .error .out_of_range) ∧
    (∀ (r : Nat) (a : Chip8), at_ret a → a.stack.stack_pointer = 0 →
      Chip8.cycle r a = .error .out_of_range) ∧
    (∀ (st : Stack) (address : Nat), st.stack_pointer = STACK_SIZE →
      ∃ e, st.push address = .error e) ∧
    (∀ st : Stack, st.stack_pointer = 0 → ∃ e, st.pop = .error e) ∧
    (∀ s, Reachable s → s.stack.stack_pointer ≤ STACK_SIZE) := by
  refine ⟨?_, ?_, ?_, ?_, reachable_stack_bound⟩
  · intro r st calls hst hlen hc
    obtain ⟨pcs, st1, f1, f2⟩ := run_calls r calls st (by rw [hst, hlen]; omega) hc
    have hfull : st1.stack_pointer = STACK_SIZE := by rw [f2, hst, hlen]; omega
    refine ⟨pcs, st1, f1, hfull, ?_⟩
    intro a ha
    apply cycle_call_full r { a with stack := st1 } ha
    show ¬ st1.stack_pointer < STACK_SIZE
    omega
  · intro r a ha h0
    exact cycle_ret_empty r a ha h0
  · intro st address h
    refine ⟨.out_of_range, ?_⟩
    unfold Stack.push
    rw [if_neg (by omega)]
  · intro st h
    refine ⟨.out_of_range, ?_⟩
    have hbig : ¬ USIZE - 1 < STACK_SIZE := by decide
    unfold Stack.pop
    simp only [if_pos h, if_neg hbig]

/-- An instance of C7: the one-instruction program `0x200: CALL 0x200` runs
sixteen call cycles and fails on the seventeenth, and a fresh machine at a
return instruction fails at once. -/
theorem stack_bounds_fatal_witness :
    (∃ pcs st1,
      run_ops 0 Chip8.new.stack (List.replicate 16 (machine_at 0x200 0x22 0x00))
        = .ok (pcs, st1) ∧
      st1.stack_pointer = 16 ∧
      Chip8.cycle 0 { machine_at 0x200 0x22 0x00 with stack := st1 } = .error .out_of_range) ∧
    Chip8.cycle 0 (machine_at 0x200 0x00 0xEE) = .error .out_of_range := by
  have hcall : at_call (machine_at 0x200 0x22 0x00) := ⟨by decide, by decide⟩
  constructor
  · obtain ⟨pcs, st1, f1, f2, f3⟩ :=
      stack_bounds_fatal.1 0 Chip8.new.stack (List.replicate 16 (machine_at 0x200 0x22 0x00))
        rfl (by simp [STACK_SIZE])
        (by intro a ha; rw [List.eq_of_mem_replicate ha]; exact hcall)
    exact ⟨pcs, st1, f1, f2, f3 _ hcall⟩
  · exact stack_bounds_fatal.2.1 0 (machine_at 0x200 0x00 0xEE) ⟨by decide, by decide⟩ rfl

/-! ## Waiting for a key -/

theorem find_first (p : Nat → Bool) (n k : Nat) (hk : k < n) (hp : p k = true)
    (hlt : ∀ i, i < k → p i = false) : (List.range n).find? p = some k := by
  induction n with
  | zero => omega
  | succ n ih =>
    rw [List.range_succ, List.find?_append]
    by_cases h : k < n
    · rw [ih h]; rfl
    · have hkn : k = n := by omega
      subst hkn
      have hnone : (List.range k).find? p = none := by
        rw [List.find?_eq_none]
        intro x hx
        rw [hlt x (List.mem_range.mp hx)]
        simp
      rw [hnone]
      simp [List.find?, hp]

theorem Chip8.ld_vx_k_some (t : Chip8) (k : Nat)
    (h : (List.range KEY_COUNT).find? (fun i => t.keys_pressed i) = some k) :
    t.ld_vx_k = t.set_vx k := by
  unfold Chip8.ld_vx_k
  rw [h]

theorem Chip8.ld_vx_k_none (t : Chip8)
    (h : (List.range KEY_COUNT).find? (fun i => t.keys_pressed i) = none) :
    t.ld_vx_k = t.decrement_pc := by
  unfold Chip8.ld_vx_k
  rw [h]

theorem exec_ld_vx_k (r : Nat) (t : Chip8) (h12 : t.instruction >>> 12 = 0xF)
    (hnn : t.extract_nn = 0x0A) :
    Chip8.execute_instruction r t = .ok t.ld_vx_k := by
  simp [Chip8.execute_instruction, h12, hnn]

theorem cycle_key_wait (r : Nat) (s : Chip8) (X : Nat) (hX : X ≤ 0xF)
    (hf : s.pc + 1 < MEMORY_SIZE) (hw : word_at s.memory s.pc = 0xF00A + 0x100 * X) :
    Chip8.cycle r s = .ok (Chip8.decrement_timers
      (Chip8.ld_vx_k (Chip8.increment_pc { s with instruction := word_at s.memory s.pc }))) := by
  rw [Chip8.cycle_eq r s hf, exec_ld_vx_k]
  · show word_at s.memory s.pc >>> 12 = 0xF
    rw [Nat.shiftRight_eq_div_pow, hw]; omega
  · rw [Chip8.extract_nn_eq]
    show word_at s.memory s.pc % 256 = 0x0A
    rw [hw]; omega

theorem cycle_key_wait_idle (r : Nat) (s : Chip8) (X : Nat) (hX : X ≤ 0xF)
    (hf : s.pc + 1 < MEMORY_SIZE) (hw : word_at s.memory s.pc = 0xF00A + 0x100 * X)
    (hk : ∀ i, i < KEY_COUNT → s.keys_pressed i = false) :
    ∃ s', Chip8.cycle r s = .ok s' ∧ s'.pc = s.pc ∧ s'.registers = s.registers ∧
      s'.memory = s.memory ∧ s'.keys_pressed = s.keys_pressed := by
  have hnone : (List.range KEY_COUNT).find? (fun i => s.keys_pressed i) = none := by
    rw [List.find?_eq_none]
    intro x hx
    rw [hk x (List.mem_range.mp hx)]
    simp
  have hpc : (if (s.pc + 2) % U16 < 2 then (s.pc + 2) % U16 + U16 - 2 else (s.pc + 2) % U16 - 2)
      = s.pc := by
    unfold MEMORY_SIZE at hf
    unfold U16
    split_ifs <;> omega
  refine ⟨_, cycle_key_wait r s X hX hf hw, ?_, ?_, ?_, ?_⟩
  · rw [Chip8.decrement_timers_pc, Chip8.ld_vx_k_none (Chip8.increment_pc { s with instruction := word_at s.memory s.pc }) hnone]
    exact hpc
  · rw [Chip8.decrement_timers_registers, Chip8.ld_vx_k_none (Chip8.increment_pc { s with instruction := word_at s.memory s.pc }) hnone]
    rfl
  · rw [Chip8.decrement_timers_memory, Chip8.ld_vx_k_none (Chip8.increment_pc { s with instruction := word_at s.memory s.pc }) hnone]
    rfl
  · rw [Chip8.decrement_timers_keys, Chip8.ld_vx_k_none (Chip8.increment_pc { s with instruction := word_at s.memory s.pc }) hnone]
    rfl

theorem run_key_wait_idle (rs : List Nat) :
    ∀ (s : Chip8) (X : Nat), X ≤ 0xF → s.pc + 1 < MEMORY_SIZE →
      word_at s.memory s.pc = 0xF00A + 0x100 * X →
      (∀ i, i < KEY_COUNT → s.keys_pressed i = false) →
      ∃ s', run_cycles rs s = .ok s' ∧ s'.pc = s.pc ∧ s'.registers = s.registers := by
  induction rs with
  | nil => intro s X _ _ _ _; exact ⟨s, rfl, rfl, rfl⟩
  | cons r rs ih =>
    intro s X hX hf hw hk
    obtain ⟨s1, e1, h1, h2, h3, h4⟩ := cycle_key_wait_idle r s X hX hf hw hk
    obtain ⟨s', e2, g1, g2⟩ := ih s1 X hX (by rw [h1]; exact hf) (by rw [h3, h1]; exact hw)
      (by rw [h4]; exact hk)
    refine ⟨s', ?_, by rw [g1, h1], by rw [g2, h2]⟩
    simp only [run_cycles, e1, e2]

/-- C8: for every state whose program counter points at an FX0A instruction,
(1) when no keypad flag is set, any number of cycles succeed and leave the
program counter where it was and every register unchanged; (2) when some keypad
flag is set, the cycle succeeds, advances the program counter by 2 and stores
in VX the index of the lowest-indexed pressed key, leaving the other registers
unchanged. -/
theorem key_wait_blocks (s : Chip8) (X : Nat) (hX : X ≤ 0xF) (hf : s.pc + 1 < MEMORY_SIZE)
    (hw : word_at s.memory s.pc = 0xF00A + 0x100 * X) :
    ((∀ i, i < KEY_COUNT → s.keys_pressed i = false) →
      ∀ rs : List Nat, ∃ s', run_cycles rs s = .ok s' ∧ s'.pc = s.pc ∧
        s'.registers = s.registers) ∧
    ((∃ i, i < KEY_COUNT ∧ s.keys_pressed i = true) →
      ∀ r : Nat, ∃ s' k, Chip8.cycle r s = .ok s' ∧ s'.pc = s.pc + 2 ∧
        k < KEY_COUNT ∧ s.keys_pressed k = true ∧ (∀ i, i < k → s.keys_pressed i = false) ∧
        s'.registers X = k ∧ ∀ i, i ≠ X → s'.registers i = s.registers i) := by
  constructor
  · intro hk rs
    exact run_key_wait_idle rs s X hX hf hw hk
  · intro hex r
    have hk1 := Nat.find_spec hex
    have hk2 : ∀ i, i < Nat.find hex → s.keys_pressed i = false := by
      intro i hi
      have hmin := Nat.find_min hex hi
      by_cases hp : s.keys_pressed i = true
      · exact absurd ⟨Nat.lt_trans hi hk1.1, hp⟩ hmin
      · simpa using hp
    have hsome : (List.range KEY_COUNT).find? (fun i => s.keys_pressed i) = some (Nat.find hex) :=
      find_first _ _ _ hk1.1 hk1.2 hk2
    have hx : Chip8.extract_x
        (Chip8.increment_pc { s with instruction := word_at s.memory s.pc }) = X := by
      rw [Chip8.extract_x_eq]
      show word_at s.memory s.pc / 256 % 16 = X
      rw [hw]; omega
    have hpc : (s.pc + 2) % U16 = s.pc + 2 := by
      unfold MEMORY_SIZE at hf
      unfold U16
      omega
    have hk8 : Nat.find hex % U8 = Nat.find hex := by
      have := hk1.1
      unfold KEY_COUNT at this
      unfold U8
      omega
    refine ⟨_, Nat.find hex, cycle_key_wait r s X hX hf hw, ?_, hk1.1, hk1.2, hk2, ?_, ?_⟩
    · rw [Chip8.decrement_timers_pc, Chip8.ld_vx_k_some (Chip8.increment_pc { s with instruction := word_at s.memory s.pc }) _ hsome]
      exact hpc
    · rw [Chip8.decrement_timers_registers, Chip8.ld_vx_k_some (Chip8.increment_pc { s with instruction := word_at s.memory s.pc }) _ hsome]
      show setAt s.registers (Chip8.extract_x
        (Chip8.increment_pc { s with instruction := word_at s.memory s.pc }))
        (Nat.find hex % U8) X = Nat.find hex
      rw [hx, setAt_same, hk8]
    · intro i hi
      rw [Chip8.decrement_timers_registers, Chip8.ld_vx_k_some (Chip8.increment_pc { s with instruction := word_at s.memory s.pc }) _ hsome]
      show setAt s.registers (Chip8.extract_x
        (Chip8.increment_pc { s with instruction := word_at s.memory s.pc }))
        (Nat.find hex % U8) i = s.registers i
      rw [hx, setAt_other _ _ _ _ hi]

/-- An instance of C8: `F30A` at 0x200; with no key held three cycles leave
the program counter at 0x200, and with keys 5 and 9 held one cycle moves it to
0x202 and stores 5 in V3. -/
theorem key_wait_blocks_witness :
    (∃ s', run_cycles [0, 0, 0] (machine_at 0x200 0xF3 0x0A) = .ok s' ∧ s'.pc = 0x200 ∧
      s'.registers = (machine_at 0x200 0xF3 0x0A).registers) ∧
    (∃ s', Chip8.cycle 0 (machine_keys 0x200 0xF3 0x0A keys_5_and_9) = .ok s' ∧
      s'.pc = 0x202 ∧ s'.registers 3 = 5) := by
  constructor
  · exact (key_wait_blocks (machine_at 0x200 0xF3 0x0A) 3 (by decide) (by decide)
      (by decide)).1 (fun _ _ => rfl) [0, 0, 0]
  · obtain ⟨s', k, e, hpc, _, hkt, hmin, hreg, _⟩ :=
      (key_wait_blocks (machine_keys 0x200 0xF3 0x0A keys_5_and_9) 3 (by decide) (by decide)
        (by decide)).2 ⟨5, by decide, rfl⟩ 0
    have hk5 : k ≤ 5 := by
      by_contra hgt
      have h5 := hmin 5 (by omega)
      exact absurd h5 (by decide)
    have hk : k = 5 := by
      interval_cases k
      · exact absurd hkt (by decide)
      · exact absurd hkt (by decide)
      · exact absurd hkt (by decide)
      · exact absurd hkt (by decide)
      · exact absurd hkt (by decide)
      · rfl
    exact ⟨s', e, hpc, by rw [hreg, hk]⟩

/-! ## Dispatch of words outside the opcode table -/

/-- C9, evaluated on three words that match none of the 35 signatures: 0xF000
is executed as a no-op, 0x8008 is executed as the left shift, and 0x01E0 is
executed as clear-screen; none of them raises the illegal-instruction error. -/
theorem unlisted_words_executed :
    known_opcode 0xF000 = false ∧ known_opcode 0x8008 = false ∧ known_opcode 0x01E0 = false ∧
    (∀ (r : Nat) (s : Chip8), s.instruction = 0xF000 →
      Chip8.execute_instruction r s = .ok s) ∧
    (∀ (r : Nat) (s : Chip8), s.instruction = 0x8008 →
      Chip8.execute_instruction r s = .ok s.shl_vx) ∧
    (∀ (r : Nat) (s : Chip8), s.instruction = 0x01E0 →
      Chip8.execute_instruction r s = .ok s.cls) ∧
    (∃ s', Chip8.execute_instruction 0 (machine 0x8008 regs_v0_81) = .ok s' ∧
      s'.registers 0x0 = 0x02 ∧ s'.registers 0xF = 1) := by
  refine ⟨by decide, by decide, by decide, ?_, ?_, ?_, ⟨_, rfl, by decide, by decide⟩⟩
  · intro r s h
    have h12 : s.instruction >>> 12 = 0xF := by rw [h]; rfl
    have hnn : s.extract_nn = 0 := by rw [Chip8.extract_nn_eq, h]
    simp [Chip8.execute_instruction, h12, hnn]
  · intro r s h
    have h12 : s.instruction >>> 12 = 0x8 := by rw [h]; rfl
    have hn : s.extract_n = 8 := by rw [Chip8.extract_n_eq, h]
    simp [Chip8.execute_instruction, h12, hn]
  · intro r s h
    have h12 : s.instruction >>> 12 = 0x0 := by rw [h]; rfl
    have hnn : s.extract_nn = 0xE0 := by rw [Chip8.extract_nn_eq, h]
    simp [Chip8.execute_instruction, h12, hnn]

/-! ## Bulk register transfer -/

/-- C10, evaluated at X = 1: the store F155 with V0 = 0x11, V1 = 0x22 and
I = 0x300 writes memory[0x300] = 0x11 and leaves memory[0x301] at 0; the load
F165 from memory 0x11, 0x22 at 0x300 sets V0 = 0x11 and leaves V1 at 0. -/
theorem bulk_transfer_stops_before_vx :
    (∃ s', Chip8.execute_instruction 0 (mem_machine 0xF155 0x300 (fun _ => 0) regs_two) = .ok s' ∧
      regs_two 0x1 = 0x22 ∧ s'.memory 0x300 = 0x11 ∧ s'.memory 0x301 = 0) ∧
    (∃ s', Chip8.execute_instruction 0 (mem_machine 0xF165 0x300 mem_two (fun _ => 0)) = .ok s' ∧
      mem_two 0x301 = 0x22 ∧ s'.registers 0x0 = 0x11 ∧ s'.registers 0x1 = 0) :=
  ⟨⟨_, rfl, by decide, by decide, by decide⟩, ⟨_, rfl, by decide, by decide, by decide⟩⟩

theorem exec_ld_mem_vx (r : Nat) (t : Chip8) (h12 : t.instruction >>> 12 = 0xF)
    (hnn : t.extract_nn = 0x55) :
    Chip8.execute_instruction r t = t.ld_mem_vx := by
  simp [Chip8.execute_instruction, h12, hnn]

theorem exec_ld_vx_mem (r : Nat) (t : Chip8) (h12 : t.instruction >>> 12 = 0xF)
    (hnn : t.extract_nn = 0x65) :
    Chip8.execute_instruction r t = t.ld_vx_mem := by
  simp [Chip8.execute_instruction, h12, hnn]

theorem Chip8.ld_mem_vx_as_outcome (s : Chip8) : s.ld_mem_vx = as_result s.ld_mem_vx_outcome := by
  unfold Chip8.ld_mem_vx Chip8.ld_mem_vx_outcome as_result
  simp only
  split <;> rfl

theorem Chip8.ld_vx_mem_as_outcome (s : Chip8) : s.ld_vx_mem = as_result s.ld_vx_mem_outcome := by
  unfold Chip8.ld_vx_mem Chip8.ld_vx_mem_outcome as_result
  simp only
  split <;> rfl

theorem Chip8.ld_mem_vx_error_iff (s : Chip8) :
    s.ld_mem_vx = .error .out_of_range ↔ s.index + s.extract_x ≥ MEMORY_SIZE := by
  unfold Chip8.ld_mem_vx
  simp only
  split
  · rename_i h; exact ⟨fun _ => h, fun _ => rfl⟩
  · rename_i h; exact ⟨fun e => (by cases e), fun g => absurd g h⟩

theorem Chip8.ld_vx_mem_error_iff (s : Chip8) :
    s.ld_vx_mem = .error .out_of_range ↔ s.index + s.extract_x ≥ MEMORY_SIZE := by
  unfold Chip8.ld_vx_mem
  simp only
  split
  · rename_i h; exact ⟨fun _ => h, fun _ => rfl⟩
  · rename_i h; exact ⟨fun e => (by cases e), fun g => absurd g h⟩

/-- C11: for every index value I and every X in 0..15, the bulk store (FX55)
and the bulk load (FX65) fail with the out-of-range error exactly when
I + X >= 4096 and succeed otherwise; when they fail, the machine they leave
behind is the one they started from. -/
theorem bulk_transfer_bounds (r : Nat) (s : Chip8) (X : Nat) (hX : X ≤ 0xF) :
    (s.instruction = 0xF055 + 0x100 * X →
      Chip8.execute_instruction r s = as_result s.ld_mem_vx_outcome ∧
      (Chip8.execute_instruction r s = .error .out_of_range ↔ s.index + X ≥ MEMORY_SIZE) ∧
      (s.index + X < MEMORY_SIZE → ∃ s', Chip8.execute_instruction r s = .ok s') ∧
      (s.index + X ≥ MEMORY_SIZE → s.ld_mem_vx_outcome = (s, some .out_of_range))) ∧
    (s.instruction = 0xF065 + 0x100 * X →
      Chip8.execute_instruction r s = as_result s.ld_vx_mem_outcome ∧
      (Chip8.execute_instruction r s = .error .out_of_range ↔ s.index + X ≥ MEMORY_SIZE) ∧
      (s.index + X < MEMORY_SIZE → ∃ s', Chip8.execute_instruction r s = .ok s') ∧
      (s.index + X ≥ MEMORY_SIZE → s.ld_vx_mem_outcome = (s, some .out_of_range))) := by
  constructor
  · intro hi
    have h12 : s.instruction >>> 12 = 0xF := by rw [Chip8.opclass_eq]; omega
    have hnn : s.extract_nn = 0x55 := by rw [Chip8.extract_nn_eq]; omega
    have hx : s.extract_x = X := by rw [Chip8.extract_x_eq]; omega
    have e := exec_ld_mem_vx r s h12 hnn
    refine ⟨by rw [e, Chip8.ld_mem_vx_as_outcome], ?_, ?_, ?_⟩
    · rw [e, Chip8.ld_mem_vx_error_iff, hx]
    · intro hlt
      rw [e]
      unfold Chip8.ld_mem_vx
      simp only [hx]
      rw [if_neg (by omega)]
      exact ⟨_, rfl⟩
    · intro hge
      unfold Chip8.ld_mem_vx_outcome
      simp only [hx]
      rw [if_pos hge]
  · intro hi
    have h12 : s.instruction >>> 12 = 0xF := by rw [Chip8.opclass_eq]; omega
    have hnn : s.extract_nn = 0x65 := by rw [Chip8.extract_nn_eq]; omega
    have hx : s.extract_x = X := by rw [Chip8.extract_x_eq]; omega
    have e := exec_ld_vx_mem r s h12 hnn
    refine ⟨by rw [e, Chip8.ld_vx_mem_as_outcome], ?_, ?_, ?_⟩
    · rw [e, Chip8.ld_vx_mem_error_iff, hx]
    · intro hlt
      rw [e]
      unfold Chip8.ld_vx_mem
      simp only [hx]
      rw [if_neg (by omega)]
      exact ⟨_, rfl⟩
    · intro hge
      unfold Chip8.ld_vx_mem_outcome
      simp only [hx]
      rw [if_pos hge]

/-- An instance of C11: with I = 0xFFF the store F155 and the load F165 both
throw and leave the machine as it was, and with I = 0xFFE both succeed. -/
theorem bulk_transfer_bounds_witness :
    Chip8.execute_instruction 0 (mem_machine 0xF155 0xFFF (fun _ => 0) regs_two)
        = .error .out_of_range ∧
      (mem_machine 0xF155 0xFFF (fun _ => 0) regs_two).ld_mem_vx_outcome
        = (mem_machine 0xF155 0xFFF (fun _ => 0) regs_two, some .out_of_range) ∧
      Chip8.execute_instruction 0 (mem_machine 0xF165 0xFFF mem_two (fun _ => 0))
        = .error .out_of_range ∧
      (∃ s', Chip8.execute_instruction 0 (mem_machine 0xF155 0xFFE (fun _ => 0) regs_two)
        = .ok s') := by
  have h1 := (bulk_transfer_bounds 0 (mem_machine 0xF155 0xFFF (fun _ => 0) regs_two) 1
    (by decide)).1 (by decide)
  have h2 := (bulk_transfer_bounds 0 (mem_machine 0xF165 0xFFF mem_two (fun _ => 0)) 1
    (by decide)).2 (by decide)
  have h3 := (bulk_transfer_bounds 0 (mem_machine 0xF155 0xFFE (fun _ => 0) regs_two) 1
    (by decide)).1 (by decide)
  exact ⟨h1.2.1.mpr (by decide), h1.2.2.2 (by decide), h2.2.1.mpr (by decide),
    h3.2.2.1 (by decide)⟩

/-! ## Binary-coded decimal -/

theorem exec_ld_b_vx (r : Nat) (t : Chip8) (h12 : t.instruction >>> 12 = 0xF)
    (hnn : t.extract_nn = 0x33) :
    Chip8.execute_instruction r t = t.ld_b_vx := by
  simp [Chip8.execute_instruction, h12, hnn]

theorem Chip8.store_at_ok (s : Chip8) (a v : Nat) (h : a < MEMORY_SIZE) :
    s.store_at a v = .ok { s with memory := setAt s.memory a (v % U8) } := by
  unfold Chip8.store_at
  rw [if_pos h]

theorem Chip8.ld_b_vx_ok (s : Chip8) (hb : s.index + 2 < MEMORY_SIZE) :
    s.ld_b_vx = .ok
      { s with
        memory :=
          setAt (setAt (setAt s.memory s.index (s.vx / 100 % U8)) (s.index + 1)
            (s.vx / 10 % 10 % U8)) (s.index + 2) (s.vx % 10 % U8) } := by
  unfold Chip8.ld_b_vx
  rw [Chip8.store_at_ok s _ _ (by omega)]
  simp only [bind, Except.bind]
  rw [Chip8.store_at_ok _ _ _ (by show s.index + 1 < MEMORY_SIZE; omega)]
  simp only
  rw [Chip8.store_at_ok _ _ _ (by show s.index + 2 < MEMORY_SIZE; omega)]
  rfl

/-- C12: the binary-coded-decimal store (FX33) with VX = v in 0..255 and
I + 2 < 4096 writes the hundreds, tens and ones digits h, t, o of v to
memory[I], memory[I+1], memory[I+2], where each digit is at most 9, h is at most
2 and 100 h + 10 t + o = v; every other memory byte, every register and I are
unchanged. -/
theorem bcd_store (r : Nat) (s : Chip8) (X : Nat) (hX : X ≤ 0xF)
    (hi : s.instruction = 0xF033 + 0x100 * X) (hv : s.registers X ≤ UINT8_MAX)
    (hb : s.index + 2 < MEMORY_SIZE) :
    ∃ s' h t o, Chip8.execute_instruction r s = .ok s' ∧
      s'.memory s.index = h ∧ s'.memory (s.index + 1) = t ∧ s'.memory (s.index + 2) = o ∧
      h ≤ 2 ∧ t ≤ 9 ∧ o ≤ 9 ∧ 100 * h + 10 * t + o = s.registers X ∧
      (∀ a, a ≠ s.index → a ≠ s.index + 1 → a ≠ s.index + 2 → s'.memory a = s.memory a) ∧
      s'.registers = s.registers ∧ s'.index = s.index := by
  have h12 : s.instruction >>> 12 = 0xF := by rw [Chip8.opclass_eq]; omega
  have hnn : s.extract_nn = 0x33 := by rw [Chip8.extract_nn_eq]; omega
  have hx : s.extract_x = X := by rw [Chip8.extract_x_eq]; omega
  have hvx : s.vx = s.registers X := by unfold Chip8.vx; rw [hx]
  unfold UINT8_MAX at hv
  refine ⟨
    { s with
      memory :=
        setAt (setAt (setAt s.memory s.index (s.vx / 100 % U8)) (s.index + 1)
          (s.vx / 10 % 10 % U8)) (s.index + 2) (s.vx % 10 % U8) },
    s.registers X / 100, s.registers X / 10 % 10, s.registers X % 10,
    by rw [exec_ld_b_vx r s h12 hnn, Chip8.ld_b_vx_ok s hb], ?_, ?_, ?_, by omega, by omega,
    by omega, by omega, ?_, rfl, rfl⟩
  · show setAt (setAt (setAt s.memory s.index (s.vx / 100 % U8)) (s.index + 1)
      (s.vx / 10 % 10 % U8)) (s.index + 2) (s.vx % 10 % U8) s.index = _
    rw [setAt_other _ _ _ _ (by omega), setAt_other _ _ _ _ (by omega), setAt_same, hvx]
    unfold U8
    omega
  · show setAt (setAt (setAt s.memory s.index (s.vx / 100 % U8)) (s.index + 1)
      (s.vx / 10 % 10 % U8)) (s.index + 2) (s.vx % 10 % U8) (s.index + 1) = _
    rw [setAt_other _ _ _ _ (by omega), setAt_same, hvx]
    unfold U8
    omega
  · show setAt (setAt (setAt s.memory s.index (s.vx / 100 % U8)) (s.index + 1)
      (s.vx / 10 % 10 % U8)) (s.index + 2) (s.vx % 10 % U8) (s.index + 2) = _
    rw [setAt_same, hvx]
    unfold U8
    omega
  · intro a h0 h1 h2
    show setAt (setAt (setAt s.memory s.index (s.vx / 100 % U8)) (s.index + 1)
      (s.vx / 10 % 10 % U8)) (s.index + 2) (s.vx % 10 % U8) a = _
    rw [setAt_other _ _ _ _ h2, setAt_other _ _ _ _ h1, setAt_other _ _ _ _ h0]

/-- An instance of C12: V2 = 234 and I = 0x300 give the bytes 2, 3, 4 at
0x300, 0x301, 0x302. -/
theorem bcd_store_witness :
    ∃ s', Chip8.execute_instruction 0 (mem_machine 0xF233 0x300 (fun _ => 0) regs_v2_234)
        = .ok s' ∧
      s'.memory 0x300 = 2 ∧ s'.memory 0x301 = 3 ∧ s'.memory 0x302 = 4 := by
  obtain ⟨s', h, t, o, e, h1, h2, h3, b1, b2, b3, hsum, _, _, _⟩ :=
    bcd_store 0 (mem_machine 0xF233 0x300 (fun _ => 0) regs_v2_234) 2 (by decide) (by decide)
      (by decide) (by decide)
  have hv : (mem_machine 0xF233 0x300 (fun _ => 0) regs_v2_234).registers 2 = 234 := by decide
  rw [hv] at hsum
  have e2 : h = 2 := by omega
  have e3 : t = 3 := by omega
  have e4 : o = 4 := by omega
  subst e2 e3 e4
  exact ⟨s', e, h1, h2, h3⟩

/-! ## Reset -/

theorem Chip8.new_memory (a : Nat) :
    Chip8.new.memory a =
      if FONT_ADDRESS ≤ a ∧ a < FONT_ADDRESS + 80 then fontset.getD (a - FONT_ADDRESS) 0
      else 0 := by
  show copy_n (fun i => fontset.getD i 0) 0 fontset.length (fun _ => 0) FONT_ADDRESS a = _
  have hl : fontset.length = 80 := rfl
  unfold copy_n
  rw [hl, Nat.zero_add]

/-- C13: for every machine state, reset gives the freshly constructed machine
in every field except the keypad flags, which it leaves unchanged: memory is
zero outside [0x50, 0xA0) and the font table inside, registers, call stack,
framebuffer, I, timers and the last-fetched instruction are zero and the
program counter is 0x200; reset is idempotent. -/
theorem reset_restores_construction (s : Chip8) :
    s.reset = { Chip8.new with keys_pressed := s.keys_pressed } ∧
    (∀ a, s.reset.memory a =
      if FONT_ADDRESS ≤ a ∧ a < FONT_ADDRESS + 80 then fontset.getD (a - FONT_ADDRESS) 0
      else 0) ∧
    (∀ i, s.reset.registers i = 0) ∧
    s.reset.stack.stack_pointer = 0 ∧ (∀ i, s.reset.stack.stack i = 0) ∧
    (∀ o, s.reset.screen.screen o = 0) ∧
    s.reset.index = 0 ∧ s.reset.pc = 0x200 ∧ s.reset.sound_timer = 0 ∧
    s.reset.delay_timer = 0 ∧ s.reset.instruction = 0 ∧
    s.reset.keys_pressed = s.keys_pressed ∧
    s.reset.reset = s.reset :=
  ⟨rfl, fun a => Chip8.new_memory a, fun _ => rfl, rfl, fun _ => rfl, fun _ => rfl, rfl, rfl,
    rfl, rfl, rfl, rfl, rfl⟩

/-! ## Decode and execute, end to end -/

theorem exec_ld_vx_nn (r : Nat) (t : Chip8) (h12 : t.instruction >>> 12 = 0x6) :
    Chip8.execute_instruction r t = .ok t.ld_vx_nn := by
  simp [Chip8.execute_instruction, h12]

theorem cycle_ld_vx_nn (r : Nat) (s : Chip8) (X NN : Nat) (hX : X ≤ 0xF) (hNN : NN ≤ 0xFF)
    (hf : s.pc + 1 < MEMORY_SIZE) (hw : word_at s.memory s.pc = 0x6000 + 0x100 * X + NN) :
    ∃ s', Chip8.cycle r s = .ok s' ∧ s'.registers X = NN ∧ s'.pc = s.pc + 2 ∧
      ∀ i, i ≠ X → s'.registers i = s.registers i := by
  have hx : Chip8.extract_x
      (Chip8.increment_pc { s with instruction := word_at s.memory s.pc }) = X := by
    rw [Chip8.extract_x_eq]
    show word_at s.memory s.pc / 256 % 16 = X
    rw [hw]; omega
  have hnn : Chip8.extract_nn
      (Chip8.increment_pc { s with instruction := word_at s.memory s.pc }) = NN := by
    rw [Chip8.extract_nn_eq]
    show word_at s.memory s.pc % 256 = NN
    rw [hw]; omega
  have hpc : (s.pc + 2) % U16 = s.pc + 2 := by
    unfold MEMORY_SIZE at hf
    unfold U16
    omega
  have hn8 : NN % U8 = NN := by unfold U8; omega
  have e : Chip8.execute_instruction r
      (Chip8.increment_pc { s with instruction := word_at s.memory s.pc }) =
      .ok (Chip8.ld_vx_nn
        (Chip8.increment_pc { s with instruction := word_at s.memory s.pc })) := by
    apply exec_ld_vx_nn
    show word_at s.memory s.pc >>> 12 = 6
    rw [Nat.shiftRight_eq_div_pow, hw]; omega
  rw [Chip8.cycle_eq r s hf, e]
  refine ⟨_, rfl, ?_, ?_, ?_⟩
  · rw [Chip8.decrement_timers_registers]
    show setAt s.registers (Chip8.extract_x
      (Chip8.increment_pc { s with instruction := word_at s.memory s.pc }))
      (Chip8.extract_nn
        (Chip8.increment_pc { s with instruction := word_at s.memory s.pc }) % U8) X = NN
    rw [hx, hnn, setAt_same, hn8]
  · rw [Chip8.decrement_timers_pc]
    exact hpc
  · intro i hi
    rw [Chip8.decrement_timers_registers]
    show setAt s.registers (Chip8.extract_x
      (Chip8.increment_pc { s with instruction := word_at s.memory s.pc }))
      (Chip8.extract_nn
        (Chip8.increment_pc { s with instruction := word_at s.memory s.pc }) % U8) i = _
    rw [hx, setAt_other _ _ _ _ hi]

/-- C14: on a freshly constructed machine loaded with the bytes 6A 02 6B 03 8A
B4, three successive cycles succeed; after the first VA = 2, after the second
VB = 3, after the third VA = 5, VB = 3, VF = 0 and the program counter is 0x206.
In general a cycle that fetches 6XNN sets VX to NN, advances the program counter
by 2 and changes no other register. -/
theorem decode_execute_end_to_end :
    (∀ r1 r2 r3 : Nat, ∃ s1 s2 s3,
      Chip8.cycle r1 (Chip8.new.load_rom rom_add_demo) = .ok s1 ∧ s1.registers 0xA = 2 ∧
      Chip8.cycle r2 s1 = .ok s2 ∧ s2.registers 0xB = 3 ∧
      Chip8.cycle r3 s2 = .ok s3 ∧ s3.registers 0xA = 5 ∧ s3.registers 0xB = 3 ∧
      s3.registers 0xF = 0 ∧ s3.pc = 0x206) ∧
    (∀ (r : Nat) (s : Chip8) (X NN : Nat), X ≤ 0xF → NN ≤ 0xFF → s.pc + 1 < MEMORY_SIZE →
      word_at s.memory s.pc = 0x6000 + 0x100 * X + NN →
      ∃ s', Chip8.cycle r s = .ok s' ∧ s'.registers X = NN ∧ s'.pc = s.pc + 2 ∧
        ∀ i, i ≠ X → s'.registers i = s.registers i) :=
  ⟨fun _ _ _ => ⟨_, _, _, rfl, rfl, rfl, rfl, rfl, rfl, rfl, rfl, rfl⟩, cycle_ld_vx_nn⟩

/-- An instance of the general part of C14: the first cycle of the program
6A02 6B03 8AB4 sets VA to 2 and moves the program counter to 0x202. -/
theorem decode_execute_end_to_end_witness :
    ∃ s', Chip8.cycle 0 (Chip8.new.load_rom rom_add_demo) = .ok s' ∧ s'.registers 0xA = 2 ∧
      s'.pc = 0x202 := by
  obtain ⟨s', e, h1, h2, _⟩ :=
    decode_execute_end_to_end.2 0 (Chip8.new.load_rom rom_add_demo) 0xA 0x02 (by decide)
      (by decide) (by decide) (by decide)
  exact ⟨s', e, h1, h2⟩

/-! ## Reverse subtraction and shifts -/

theorem Chip8.subn_vx_vy_registers (s : Chip8) :
    s.subn_vx_vy.registers =
      setAt (setAt s.registers 0xF (boolToU8 (decide (s.vy > s.vx)) % U8)) s.extract_x
        ((setAt s.registers 0xF (boolToU8 (decide (s.vy > s.vx)) % U8) s.extract_y + U8
          - setAt s.registers 0xF (boolToU8 (decide (s.vy > s.vx)) % U8) s.extract_x) % U8) := rfl

/-- Reverse-subtract (8XY7) when neither X nor Y is 0xF: VF is 1 when b exceeds
a and 0 otherwise, and VX holds (b - a) mod 256 of the values before execution. -/
theorem subn_vx_vy_borrow_of_ne (r : Nat) (s : Chip8) (X Y : Nat) (hX : X < 0xF) (hY : Y < 0xF)
    (hi : s.instruction = 0x8007 + 0x100 * X + 0x10 * Y) :
    ∃ s', Chip8.execute_instruction r s = .ok s' ∧
      s'.registers 0xF = (if s.registers Y > s.registers X then 1 else 0) ∧
      s'.registers X = (s.registers Y + 256 - s.registers X) % 256 := by
  have h12 : s.instruction >>> 12 = 8 := by rw [Chip8.opclass_eq]; omega
  have hn : s.extract_n = 7 := by rw [Chip8.extract_n_eq]; omega
  have hx : s.extract_x = X := by rw [Chip8.extract_x_eq]; omega
  have hy : s.extract_y = Y := by rw [Chip8.extract_y_eq]; omega
  have hneX : (0xF : Nat) ≠ X := by omega
  have hneX2 : X ≠ 0xF := by omega
  have hneY : Y ≠ 0xF := by omega
  refine ⟨s.subn_vx_vy, ?_, ?_, ?_⟩
  · simp [Chip8.execute_instruction, h12, hn]
  · rw [Chip8.subn_vx_vy_registers, hx, setAt_other _ _ _ _ hneX, setAt_same]
    simp only [Chip8.vx, Chip8.vy, hx, hy, boolToU8, U8]
    by_cases h : s.registers Y > s.registers X <;> simp [h]
  · rw [Chip8.subn_vx_vy_registers, hx, hy, setAt_same, setAt_other _ _ _ _ hneX2,
      setAt_other _ _ _ _ hneY]
    simp only [U8]

/-- C15, evaluated where Y is 0xF: with V0 = 3 and VF = 5 the instruction
0x80F7 stores the flag 1 first and then computes that flag minus V0, leaving
V0 = 254 where (5 - 3) mod 256 = 2 is claimed. -/
theorem subn_vx_vy_subtracts_from_new_flag :
    ∃ s', Chip8.execute_instruction 0 (machine 0x80F7 regs_subn_demo) = .ok s' ∧
      (machine 0x80F7 regs_subn_demo).registers 0x0 = 3 ∧
      (machine 0x80F7 regs_subn_demo).registers 0xF = 5 ∧
      s'.registers 0xF = 1 ∧ s'.registers 0x0 = 254 ∧
      s'.registers 0x0 ≠ (5 + 256 - 3) % 256 :=
  ⟨_, rfl, by decide, by decide, by decide, by decide, by decide⟩

theorem boolToU8_bit_at_zero (a : Nat) : boolToU8 (bit_at a 0) = a % 2 := by
  unfold boolToU8 bit_at
  rw [Nat.shiftRight_zero, Nat.and_one_is_mod]
  have h := Nat.mod_two_eq_zero_or_one a
  rcases h with h | h <;> simp [h]

theorem boolToU8_bit_at_seven (a : Nat) (ha : a ≤ 255) : boolToU8 (bit_at a 7) = a / 128 := by
  unfold boolToU8 bit_at
  rw [Nat.shiftRight_eq_div_pow, Nat.and_one_is_mod]
  have h : a / 2 ^ 7 = 0 ∨ a / 2 ^ 7 = 1 := by omega
  rcases h with h | h
  · have h2 : a / 128 = 0 := by omega
    simp [h, h2]
  · have h2 : a / 128 = 1 := by omega
    simp [h, h2]

theorem Chip8.shr_vx_registers (s : Chip8) :
    s.shr_vx.registers =
      setAt (setAt s.registers 0xF (boolToU8 (bit_at s.vx 0) % U8)) s.extract_x
        ((setAt s.registers 0xF (boolToU8 (bit_at s.vx 0) % U8) s.extract_x >>> 1) % U8) := rfl

theorem Chip8.shl_vx_registers (s : Chip8) :
    s.shl_vx.registers =
      setAt (setAt s.registers 0xF (boolToU8 (bit_at s.vx 7) % U8)) s.extract_x
        ((setAt s.registers 0xF (boolToU8 (bit_at s.vx 7) % U8) s.extract_x <<< 1) % U8) := rfl

/-- C16, evaluated where Y is 0xF: the right shift 0x80F6 with V0 = 1 and
VF = 0 writes the shifted-out bit 1 into VF, which is VY, so VY is not left
unchanged. -/
theorem shr_vx_overwrites_vy_when_y_is_flag :
    ∃ s', Chip8.execute_instruction 0 (machine 0x80F6 regs_v0_1) = .ok s' ∧
      (machine 0x80F6 regs_v0_1).extract_x = 0x0 ∧ (machine 0x80F6 regs_v0_1).extract_y = 0xF ∧
      (machine 0x80F6 regs_v0_1).registers 0xF = 0 ∧ s'.registers 0xF = 1 ∧
      s'.registers (machine 0x80F6 regs_v0_1).extract_y
        ≠ (machine 0x80F6 regs_v0_1).registers (machine 0x80F6 regs_v0_1).extract_y :=
  ⟨_, rfl, by decide, by decide, by decide, by decide, by decide⟩

/-- C16 as amended: for every X other than 0xF, every Y and every register file
with VX = a in 0..255, the right shift (8XY6, `shr_vx`) leaves VF = a mod 2 and
VX = a / 2, and the handler `shl_vx` leaves VF = a / 128 and VX = 2a mod 256;
neither result depends on VY, and VY is left unchanged when Y is neither X nor
0xF. -/
theorem shifts_capture_bit (r : Nat) (s : Chip8) (X Y : Nat) (hX : X < 0xF) (hY : Y ≤ 0xF)
    (ha : s.registers X ≤ UINT8_MAX) :
    (s.instruction = 0x8006 + 0x100 * X + 0x10 * Y →
      ∃ s', Chip8.execute_instruction r s = .ok s' ∧
        s'.registers 0xF = s.registers X % 2 ∧ s'.registers X = s.registers X / 2 ∧
        (Y ≠ X → Y ≠ 0xF → s'.registers Y = s.registers Y)) ∧
    (s.extract_x = X → s.extract_y = Y →
      s.shl_vx.registers 0xF = s.registers X / 128 ∧
      s.shl_vx.registers X = 2 * s.registers X % 256 ∧
      (Y ≠ X → Y ≠ 0xF → s.shl_vx.registers Y = s.registers Y)) := by
  have hneX : (0xF : Nat) ≠ X := by omega
  have hneX2 : X ≠ 0xF := by omega
  unfold UINT8_MAX at ha
  constructor
  · intro hi
    have h12 : s.instruction >>> 12 = 8 := by rw [Chip8.opclass_eq]; omega
    have hn : s.extract_n = 6 := by rw [Chip8.extract_n_eq]; omega
    have hx : s.extract_x = X := by rw [Chip8.extract_x_eq]; omega
    refine ⟨s.shr_vx, ?_, ?_, ?_, ?_⟩
    · simp [Chip8.execute_instruction, h12, hn]
    · rw [Chip8.shr_vx_registers, hx, setAt_other _ _ _ _ hneX, setAt_same]
      simp only [Chip8.vx, hx, boolToU8_bit_at_zero, U8]
      omega
    · rw [Chip8.shr_vx_registers, hx, setAt_same, setAt_other _ _ _ _ hneX2,
        Nat.shiftRight_eq_div_pow]
      unfold U8
      omega
    · intro h1 h2
      rw [Chip8.shr_vx_registers, hx, setAt_other _ _ _ _ h1, setAt_other _ _ _ _ h2]
  · intro hx _
    refine ⟨?_, ?_, ?_⟩
    · rw [Chip8.shl_vx_registers, hx, setAt_other _ _ _ _ hneX, setAt_same]
      simp only [Chip8.vx, hx, boolToU8_bit_at_seven _ ha, U8]
      omega
    · rw [Chip8.shl_vx_registers, hx, setAt_same, setAt_other _ _ _ _ hneX2,
        Nat.shiftLeft_eq]
      unfold U8
      omega
    · intro h1 h2
      rw [Chip8.shl_vx_registers, hx, setAt_other _ _ _ _ h1, setAt_other _ _ _ _ h2]

/-- An instance of C16 as amended: with V0 = 0x81 and Y = 1 the right shift
0x8016 gives VF = 1 and V0 = 0x40, and `shl_vx` gives VF = 1 and V0 = 0x02. -/
theorem shifts_capture_bit_witness :
    (∃ s', Chip8.execute_instruction 0 (machine 0x8016 regs_v0_81) = .ok s' ∧
      s'.registers 0xF = 1 ∧ s'.registers 0x0 = 0x40) ∧
    (machine 0x8016 regs_v0_81).shl_vx.registers 0xF = 1 ∧
    (machine 0x8016 regs_v0_81).shl_vx.registers 0x0 = 0x02 := by
  have h := shifts_capture_bit 0 (machine 0x8016 regs_v0_81) 0 1 (by decide) (by decide)
    (by decide)
  obtain ⟨s', e, h1, h2, _⟩ := h.1 (by decide)
  obtain ⟨g1, g2, _⟩ := h.2 (by decide) (by decide)
  exact ⟨⟨s', e, by rw [h1]; decide, by rw [h2]; decide⟩, by rw [g1]; decide, by rw [g2]; decide⟩

/-! ## Fetch -/

theorem shiftLeft_or_byte (a b : Nat) (hb : b ≤ 255) : (a <<< 8) ||| b = a * 256 + b := by
  have h : b < 2 ^ 8 := by omega
  rw [Nat.shiftLeft_eq, Nat.mul_comm a (2 ^ 8), ← Nat.mul_add_lt_is_or h a]

theorem word_at_big_endian (memory : Nat → Nat) (p : Nat) (h0 : memory p ≤ 255)
    (h1 : memory (p + 1) ≤ 255) : word_at memory p = memory p * 256 + memory (p + 1) := by
  unfold word_at U16
  rw [shiftLeft_or_byte _ _ h1]
  omega

/-- C17: for every memory of bytes and every program counter p <= 4094,
`fetch_instruction` succeeds, sets the instruction to
memory[p] * 256 + memory[p + 1] and changes nothing else; for every p >= 4095
`fetch_instruction` and `cycle` fail with the out-of-range error. -/
theorem fetch_big_endian (r : Nat) (s : Chip8) :
    (s.pc ≤ 4094 → s.memory s.pc ≤ UINT8_MAX → s.memory (s.pc + 1) ≤ UINT8_MAX →
      s.fetch_instruction =
        .ok { s with instruction := s.memory s.pc * 256 + s.memory (s.pc + 1) }) ∧
    (s.pc ≥ 4095 →
      s.fetch_instruction = .error .out_of_range ∧ Chip8.cycle r s = .error .out_of_range) := by
  constructor
  · intro hp h0 h1
    rw [Chip8.fetch_eq s (by unfold MEMORY_SIZE; omega), word_at_big_endian _ _ h0 h1]
  · intro hp
    have hf : ¬ s.pc + 1 < MEMORY_SIZE := by unfold MEMORY_SIZE; omega
    refine ⟨?_, Chip8.cycle_fetch_error r s hf⟩
    unfold Chip8.fetch_instruction
    rw [if_neg (fun hh => hf hh.2)]

/-- An instance of C17: the bytes 0x12, 0x34 at 0x200 are fetched as 0x1234;
with the program counter at 4095 the fetch and the cycle fail. -/
theorem fetch_big_endian_witness :
    (∃ s', (machine_at 0x200 0x12 0x34).fetch_instruction = .ok s' ∧ s'.instruction = 0x1234) ∧
    (machine_at 4095 0x12 0x34).fetch_instruction = .error .out_of_range ∧
    Chip8.cycle 0 (machine_at 4095 0x12 0x34) = .error .out_of_range :=
  ⟨⟨_, (fetch_big_endian 0 (machine_at 0x200 0x12 0x34)).1 (by decide) (by decide) (by decide),
      by decide⟩,
    (fetch_big_endian 0 (machine_at 4095 0x12 0x34)).2 (by decide)⟩

/-! ## What each fallible handler can change -/

theorem Chip8.foldlM_drw_row_paint (x y : Nat) (rows : List Nat) (s s' : Chip8)
    (h : rows.foldlM (Chip8.drw_row x y) s = .ok s') : ∃ l, s' = paint s l := by
  induction rows generalizing s with
  | nil => cases h; exact ⟨[], rfl⟩
  | cons dy rows ih =>
    rw [List.foldlM_cons] at h
    cases h1 : Chip8.drw_row x y s dy with
    | error e => rw [h1] at h; cases h
    | ok s1 =>
      rw [h1] at h
      obtain ⟨l, hl⟩ := ih s1 h
      unfold Chip8.drw_row at h1
      split at h1
      · rw [foldl_drw_pixel] at h1
        cases h1
        exact ⟨_, by rw [hl, ← paint_append]⟩
      · cases h1

theorem Chip8.drw_shape (s s' : Chip8) (h : s.drw_vx_vy_n = .ok s') :
    ∃ l, s' = paint (s.set_vf 0) l :=
  Chip8.foldlM_drw_row_paint s.vx s.vy (List.range s.extract_n) (s.set_vf 0) s' h

theorem Chip8.skp_vx_shape (s s' : Chip8) (h : s.skp_vx = .ok s') : ∃ c, s' = s.skip_if c := by
  unfold Chip8.skp_vx at h
  split at h
  · cases h; exact ⟨_, rfl⟩
  · cases h

theorem Chip8.sknp_vx_shape (s s' : Chip8) (h : s.sknp_vx = .ok s') :
    ∃ c, s' = s.skip_if c := by
  unfold Chip8.sknp_vx at h
  split at h
  · cases h; exact ⟨_, rfl⟩
  · cases h

theorem Chip8.store_at_shape (s s' : Chip8) (a v : Nat) (h : s.store_at a v = .ok s') :
    ∃ m, s' = { s with memory := m } := by
  unfold Chip8.store_at at h
  split at h
  · cases h; exact ⟨_, rfl⟩
  · cases h

theorem Chip8.ld_b_vx_shape (s s' : Chip8) (h : s.ld_b_vx = .ok s') :
    ∃ m, s' = { s with memory := m } := by
  unfold Chip8.ld_b_vx at h
  cases h1 : s.store_at s.index (s.vx / 100) with
  | error e => rw [h1] at h; cases h
  | ok s1 =>
    rw [h1] at h
    simp only [bind, Except.bind] at h
    cases h2 : s1.store_at (s1.index + 1) (s1.vx / 10 % 10) with
    | error e => rw [h2] at h; cases h
    | ok s2 =>
      rw [h2] at h
      simp only at h
      obtain ⟨m1, e1⟩ := Chip8.store_at_shape _ _ _ _ h1
      obtain ⟨m2, e2⟩ := Chip8.store_at_shape _ _ _ _ h2
      obtain ⟨m3, e3⟩ := Chip8.store_at_shape _ _ _ _ h
      exact ⟨m3, by rw [e3, e2, e1]⟩

theorem Chip8.ld_mem_vx_shape (s s' : Chip8) (h : s.ld_mem_vx = .ok s') :
    ∃ m, s' = { s with memory := m } := by
  unfold Chip8.ld_mem_vx at h
  simp only at h
  split at h
  · cases h
  · cases h; exact ⟨_, rfl⟩

theorem Chip8.ld_vx_mem_shape (s s' : Chip8) (h : s.ld_vx_mem = .ok s') :
    ∃ v, s' = { s with registers := v } := by
  unfold Chip8.ld_vx_mem at h
  simp only at h
  split at h
  · cases h
  · cases h; exact ⟨_, rfl⟩

theorem Chip8.call_nnn_shape (s s' : Chip8) (h : s.call_nnn = .ok s') :
    s.stack.stack_pointer < STACK_SIZE ∧
    s' = { s with
           stack := { stack := setAt s.stack.stack s.stack.stack_pointer (s.pc % U16),
                      stack_pointer := (s.stack.stack_pointer + 1) % USIZE },
           pc := s.extract_nnn } := by
  unfold Chip8.call_nnn Stack.push at h
  by_cases hlt : s.stack.stack_pointer < STACK_SIZE
  · rw [if_pos hlt] at h
    cases h
    exact ⟨hlt, rfl⟩
  · rw [if_neg hlt] at h
    cases h

theorem Chip8.ret_shape (s s' : Chip8) (h : s.ret = .ok s') :
    ∃ sp, s' = { s with stack := { s.stack with stack_pointer := sp }, pc := s.stack.stack sp } := by
  unfold Chip8.ret at h
  cases hp : s.stack.pop with
  | error e => rw [hp] at h; cases h
  | ok v =>
    obtain ⟨address, st⟩ := v
    rw [hp] at h
    cases h
    unfold Stack.pop at hp
    simp only at hp
    by_cases h0 : s.stack.stack_pointer = 0
    · have hbig : ¬ USIZE - 1 < STACK_SIZE := by decide
      rw [if_pos h0, if_neg hbig] at hp
      cases hp
    · rw [if_neg h0] at hp
      by_cases hlt : s.stack.stack_pointer - 1 < STACK_SIZE
      · rw [if_pos hlt] at hp
        cases hp
        exact ⟨_, rfl⟩
      · rw [if_neg hlt] at hp
        cases hp

theorem paint_delay_timer (s : Chip8) (l : List Nat) :
    (paint s l).delay_timer = s.delay_timer := by
  induction l generalizing s with
  | nil => rfl
  | cons o l ih => simp only [paint, List.foldl_cons] at ih ⊢; rw [ih]; rfl

theorem paint_sound_timer (s : Chip8) (l : List Nat) :
    (paint s l).sound_timer = s.sound_timer := by
  induction l generalizing s with
  | nil => rfl
  | cons o l ih => simp only [paint, List.foldl_cons] at ih ⊢; rw [ih]; rfl

theorem paint_pc (s : Chip8) (l : List Nat) : (paint s l).pc = s.pc := by
  induction l generalizing s with
  | nil => rfl
  | cons o l ih => simp only [paint, List.foldl_cons] at ih ⊢; rw [ih]; rfl

/-! ## Timers -/

theorem Chip8.skip_if_delay_timer (s : Chip8) (c : Bool) :
    (s.skip_if c).delay_timer = s.delay_timer := by
  cases c <;> rfl

theorem Chip8.skip_if_sound_timer (s : Chip8) (c : Bool) :
    (s.skip_if c).sound_timer = s.sound_timer := by
  cases c <;> rfl

theorem Chip8.ld_vx_k_delay_timer (s : Chip8) : s.ld_vx_k.delay_timer = s.delay_timer := by
  unfold Chip8.ld_vx_k
  split <;> rfl

theorem Chip8.ld_vx_k_sound_timer (s : Chip8) : s.ld_vx_k.sound_timer = s.sound_timer := by
  unfold Chip8.ld_vx_k
  split <;> rfl

theorem exec_delay_timer (r : Nat) (t t' : Chip8) (h : Chip8.execute_instruction r t = .ok t') :
    t'.delay_timer = t.delay_timer ∨ (t.instruction >>> 12 = 0xF ∧ t.extract_nn = 0x15) := by
  unfold Chip8.execute_instruction at h
  repeat' split at h
  all_goals first
    | (obtain ⟨_, e⟩ := Chip8.call_nnn_shape _ _ h; left; rw [e])
    | (obtain ⟨_, e⟩ := Chip8.ret_shape _ _ h; left; rw [e])
    | (obtain ⟨_, e⟩ := Chip8.drw_shape _ _ h; left; rw [e, paint_delay_timer]; rfl)
    | (obtain ⟨_, e⟩ := Chip8.skp_vx_shape _ _ h; left; rw [e, Chip8.skip_if_delay_timer])
    | (obtain ⟨_, e⟩ := Chip8.sknp_vx_shape _ _ h; left; rw [e, Chip8.skip_if_delay_timer])
    | (obtain ⟨_, e⟩ := Chip8.ld_b_vx_shape _ _ h; left; rw [e])
    | (obtain ⟨_, e⟩ := Chip8.ld_mem_vx_shape _ _ h; left; rw [e])
    | (obtain ⟨_, e⟩ := Chip8.ld_vx_mem_shape _ _ h; left; rw [e])
    | (left; cases h <;> rfl)
    | (left; cases h; exact Chip8.ld_vx_k_delay_timer _)
    | (left; cases h; exact Chip8.skip_if_delay_timer _ _)
    | (right; constructor <;> assumption)

theorem exec_sound_timer (r : Nat) (t t' : Chip8) (h : Chip8.execute_instruction r t = .ok t') :
    t'.sound_timer = t.sound_timer ∨ (t.instruction >>> 12 = 0xF ∧ t.extract_nn = 0x18) := by
  unfold Chip8.execute_instruction at h
  repeat' split at h
  all_goals first
    | (obtain ⟨_, e⟩ := Chip8.call_nnn_shape _ _ h; left; rw [e])
    | (obtain ⟨_, e⟩ := Chip8.ret_shape _ _ h; left; rw [e])
    | (obtain ⟨_, e⟩ := Chip8.drw_shape _ _ h; left; rw [e, paint_sound_timer]; rfl)
    | (obtain ⟨_, e⟩ := Chip8.skp_vx_shape _ _ h; left; rw [e, Chip8.skip_if_sound_timer])
    | (obtain ⟨_, e⟩ := Chip8.sknp_vx_shape _ _ h; left; rw [e, Chip8.skip_if_sound_timer])
    | (obtain ⟨_, e⟩ := Chip8.ld_b_vx_shape _ _ h; left; rw [e])
    | (obtain ⟨_, e⟩ := Chip8.ld_mem_vx_shape _ _ h; left; rw [e])
    | (obtain ⟨_, e⟩ := Chip8.ld_vx_mem_shape _ _ h; left; rw [e])
    | (left; cases h <;> rfl)
    | (left; cases h; exact Chip8.ld_vx_k_sound_timer _)
    | (left; cases h; exact Chip8.skip_if_sound_timer _ _)
    | (right; constructor <;> assumption)

theorem Chip8.decrement_timers_delay (s : Chip8) :
    s.decrement_timers.delay_timer = if s.delay_timer > 0 then s.delay_timer - 1 else 0 := by
  by_cases hd : s.delay_timer > 0 <;> by_cases hs : s.sound_timer > 0 <;>
    simp [Chip8.decrement_timers, hd, hs] <;> omega

theorem Chip8.decrement_timers_sound (s : Chip8) :
    s.decrement_timers.sound_timer = if s.sound_timer > 0 then s.sound_timer - 1 else 0 := by
  by_cases hd : s.delay_timer > 0 <;> by_cases hs : s.sound_timer > 0 <;>
    simp [Chip8.decrement_timers, hd, hs] <;> omega

theorem Chip8.decrement_timers_frame (s : Chip8) :
    s.decrement_timers =
      { s with
        delay_timer := s.decrement_timers.delay_timer,
        sound_timer := s.decrement_timers.sound_timer } := by
  simp only [Chip8.decrement_timers]
  split_ifs <;> rfl

theorem cycle_split (r : Nat) (s s' : Chip8) (h : Chip8.cycle r s = .ok s') :
    s.pc + 1 < MEMORY_SIZE ∧
    ∃ s2, Chip8.execute_instruction r
        (Chip8.increment_pc { s with instruction := word_at s.memory s.pc }) = .ok s2 ∧
      s' = s2.decrement_timers := by
  by_cases hf : s.pc + 1 < MEMORY_SIZE
  · refine ⟨hf, ?_⟩
    rw [Chip8.cycle_eq r s hf] at h
    cases he : Chip8.execute_instruction r
        (Chip8.increment_pc { s with instruction := word_at s.memory s.pc }) with
    | error e => rw [he] at h; cases h
    | ok s2 =>
      rw [he] at h
      cases h
      exact ⟨s2, rfl, rfl⟩
  · rw [Chip8.cycle_fetch_error r s hf] at h
    cases h

/-- C18: `decrement_timers` maps each of the delay and sound timers to t - 1
when t > 0 and to 0 when t = 0 and changes nothing else; every successful cycle
is the opcode handler followed by exactly one such tick, so in every successful
cycle whose instruction is not FX15 (not FX18) the delay (sound) timer goes from
t to t - 1 when t > 0 and stays 0 when t = 0. This covers the key-wait cycle
FX0A with no key pressed. -/
theorem timers_tick_once :
    (∀ s : Chip8,
      s.decrement_timers.delay_timer = (if s.delay_timer > 0 then s.delay_timer - 1 else 0) ∧
      s.decrement_timers.sound_timer = (if s.sound_timer > 0 then s.sound_timer - 1 else 0) ∧
      s.decrement_timers =
        { s with
          delay_timer := s.decrement_timers.delay_timer,
          sound_timer := s.decrement_timers.sound_timer }) ∧
    (∀ (r : Nat) (s s' : Chip8), Chip8.cycle r s = .ok s' →
      ∃ s2, Chip8.execute_instruction r
          (Chip8.increment_pc { s with instruction := word_at s.memory s.pc }) = .ok s2 ∧
        s' = s2.decrement_timers) ∧
    (∀ (r : Nat) (s s' : Chip8), Chip8.cycle r s = .ok s' →
      ¬ (word_at s.memory s.pc / 0x1000 = 0xF ∧ word_at s.memory s.pc % 0x100 = 0x15) →
      s'.delay_timer = (if s.delay_timer > 0 then s.delay_timer - 1 else 0)) ∧
    (∀ (r : Nat) (s s' : Chip8), Chip8.cycle r s = .ok s' →
      ¬ (word_at s.memory s.pc / 0x1000 = 0xF ∧ word_at s.memory s.pc % 0x100 = 0x18) →
      s'.sound_timer = (if s.sound_timer > 0 then s.sound_timer - 1 else 0)) := by
  refine ⟨fun s => ⟨s.decrement_timers_delay, s.decrement_timers_sound,
    s.decrement_timers_frame⟩, fun r s s' h => (cycle_split r s s' h).2, ?_, ?_⟩
  · intro r s s' h hn
    obtain ⟨_, s2, he, e⟩ := cycle_split r s s' h
    rw [e, Chip8.decrement_timers_delay]
    rcases exec_delay_timer r _ s2 he with hd | ⟨h1, h2⟩
    · rw [hd]; rfl
    · exfalso
      apply hn
      rw [Chip8.extract_nn_eq] at h2
      rw [Nat.shiftRight_eq_div_pow] at h1
      exact ⟨h1, h2⟩
  · intro r s s' h hn
    obtain ⟨_, s2, he, e⟩ := cycle_split r s s' h
    rw [e, Chip8.decrement_timers_sound]
    rcases exec_sound_timer r _ s2 he with hd | ⟨h1, h2⟩
    · rw [hd]; rfl
    · exfalso
      apply hn
      rw [Chip8.extract_nn_eq] at h2
      rw [Nat.shiftRight_eq_div_pow] at h1
      exact ⟨h1, h2⟩

/-- An instance of C18: a key-wait cycle (F30A, no key held) with the delay
timer at 3 and the sound timer at 0 leaves them at 2 and 0. -/
theorem timers_tick_once_witness :
    ∃ s', Chip8.cycle 0 (machine_timers 0x200 0xF3 0x0A 3 0) = .ok s' ∧
      s'.delay_timer = 2 ∧ s'.sound_timer = 0 := by
  obtain ⟨s', e, _⟩ := cycle_key_wait_idle 0 (machine_timers 0x200 0xF3 0x0A 3 0) 3
    (by decide) (by decide) (by decide) (fun _ _ => rfl)
  have h1 := timers_tick_once.2.2.1 0 _ s' e (by decide)
  have h2 := timers_tick_once.2.2.2 0 _ s' e (by decide)
  exact ⟨s', e, by rw [h1]; decide, by rw [h2]; decide⟩

/-! ## Font glyphs -/

theorem exec_ld_f_vx (r : Nat) (t : Chip8) (h12 : t.instruction >>> 12 = 0xF)
    (hnn : t.extract_nn = 0x29) :
    Chip8.execute_instruction r t = .ok t.ld_f_vx := by
  simp [Chip8.execute_instruction, h12, hnn]

theorem exec_font (r : Nat) (s : Chip8) (X v : Nat) (hX : X ≤ 0xF) (hv : v ≤ 255)
    (hi : s.instruction = 0xF029 + 0x100 * X) (hr : s.registers X = v) :
    ∃ s', Chip8.execute_instruction r s = .ok s' ∧ s'.index = 5 * v + 0x50 ∧
      s'.memory = s.memory := by
  have h12 : s.instruction >>> 12 = 0xF := by rw [Chip8.opclass_eq]; omega
  have hnn : s.extract_nn = 0x29 := by rw [Chip8.extract_nn_eq]; omega
  have hx : s.extract_x = X := by rw [Chip8.extract_x_eq]; omega
  refine ⟨s.ld_f_vx, exec_ld_f_vx r s h12 hnn, ?_, rfl⟩
  show (s.vx * FONT_STRIDE + FONT_ADDRESS) % U16 = 5 * v + 0x50
  unfold Chip8.vx FONT_STRIDE FONT_ADDRESS U16
  rw [hx, hr]
  omega

/-- C19: a reset machine has the constructor's memory; on every machine with
that memory, FX29 with VX = d for a hexadecimal digit d sets I = 0x50 + 5 d and
the five bytes memory[I .. I + 4] are the five rows of glyph d of the font
table; every font byte has its low four bits clear; and for every register
value v in 0..255 the operation sets I = 5 v + 0x50 without wraparound. -/
theorem font_glyph_addressing :
    (∀ t : Chip8, t.reset.memory = Chip8.new.memory) ∧
    (∀ (r : Nat) (s : Chip8) (X d : Nat), X ≤ 0xF → d ≤ 0xF →
      s.memory = Chip8.new.memory → s.instruction = 0xF029 + 0x100 * X → s.registers X = d →
      ∃ s', Chip8.execute_instruction r s = .ok s' ∧ s'.index = 0x50 + 5 * d ∧
        ∀ j, j < 5 → s'.memory (s'.index + j) = fontset.getD (5 * d + j) 0) ∧
    (∀ b ∈ fontset, b % 16 = 0) ∧
    (∀ (r : Nat) (s : Chip8) (X v : Nat), X ≤ 0xF → v ≤ 255 →
      s.instruction = 0xF029 + 0x100 * X → s.registers X = v →
      ∃ s', Chip8.execute_instruction r s = .ok s' ∧ s'.index = 5 * v + 0x50) := by
  refine ⟨fun _ => rfl, ?_, by decide, ?_⟩
  · intro r s X d hX hd hm hi hr
    obtain ⟨s', e, h1, h2⟩ := exec_font r s X d hX (by omega) hi hr
    refine ⟨s', e, by rw [h1]; omega, ?_⟩
    intro j hj
    rw [h2, hm, h1, Chip8.new_memory]
    have hin : FONT_ADDRESS ≤ 5 * d + 0x50 + j ∧ 5 * d + 0x50 + j < FONT_ADDRESS + 80 := by
      unfold FONT_ADDRESS
      omega
    rw [if_pos hin]
    congr 1
    unfold FONT_ADDRESS
    omega
  · intro r s X v hX hv hi hr
    obtain ⟨s', e, h1, _⟩ := exec_font r s X v hX hv hi hr
    exact ⟨s', e, h1⟩

/-- An instance of C19: on a fresh machine with VA = 0xA, FA29 sets I to 0x82,
where the five rows F0 90 F0 90 90 of the glyph A are stored. -/
theorem font_glyph_addressing_witness :
    ∃ s', Chip8.execute_instruction 0 (machine 0xFA29 (setAt (fun _ => 0) 0xA 0xA)) = .ok s' ∧
      s'.index = 0x82 ∧ s'.memory 0x82 = 0xF0 ∧ s'.memory 0x83 = 0x90 ∧ s'.memory 0x84 = 0xF0 ∧
      s'.memory 0x85 = 0x90 ∧ s'.memory 0x86 = 0x90 := by
  obtain ⟨s', e, h1, h2⟩ :=
    font_glyph_addressing.2.1 0 (machine 0xFA29 (setAt (fun _ => 0) 0xA 0xA)) 0xA 0xA
      (by decide) (by decide) rfl (by decide) (by decide)
  have g0 := h2 0 (by decide)
  have g1 := h2 1 (by decide)
  have g2 := h2 2 (by decide)
  have g3 := h2 3 (by decide)
  have g4 := h2 4 (by decide)
  rw [h1] at g0 g1 g2 g3 g4
  exact ⟨s', e, h1, g0, g1, g2, g3, g4⟩

/-! ## Program counter alignment -/

/-- C20, as stated, fails: the program 1201 loaded on a fresh machine jumps to
0x201 in one successful cycle, so a reachable state has an odd program counter. -/
theorem reachable_odd_pc : ∃ s, Reachable s ∧ s.pc = 0x201 ∧ s.pc % 2 = 1 := by
  refine ⟨_, Reachable.cycle (Chip8.new.load_rom rom_odd_jump) _ 0
    (Reachable.load _ _ Reachable.construct) rfl, ?_, ?_⟩ <;> rfl

theorem setAt_even (a : Nat → Nat) (k v : Nat) (ha : ∀ i, a i % 2 = 0) (hv : v % 2 = 0) :
    ∀ i, setAt a k v i % 2 = 0 := by
  intro i
  unfold setAt
  split
  · exact hv
  · exact ha i

theorem Chip8.skip_if_aligned (s : Chip8) (c : Bool) (hpc : s.pc % 2 = 0)
    (hst : ∀ i, s.stack.stack i % 2 = 0) :
    (s.skip_if c).pc % 2 = 0 ∧ ∀ i, (s.skip_if c).stack.stack i % 2 = 0 := by
  cases c
  · exact ⟨hpc, hst⟩
  · refine ⟨?_, hst⟩
    show (s.pc + 2) % U16 % 2 = 0
    unfold U16
    omega

theorem Chip8.ld_vx_k_aligned (s : Chip8) (hpc : s.pc % 2 = 0)
    (hst : ∀ i, s.stack.stack i % 2 = 0) :
    s.ld_vx_k.pc % 2 = 0 ∧ ∀ i, s.ld_vx_k.stack.stack i % 2 = 0 := by
  unfold Chip8.ld_vx_k
  split
  · exact ⟨hpc, hst⟩
  · refine ⟨?_, hst⟩
    show (if s.pc < 2 then s.pc + U16 - 2 else s.pc - 2) % 2 = 0
    unfold U16
    split <;> omega

theorem exec_aligned (r : Nat) (t t' : Chip8) (h : Chip8.execute_instruction r t = .ok t')
    (hpc : t.pc % 2 = 0) (hst : ∀ i, t.stack.stack i % 2 = 0)
    (hj : t.instruction >>> 12 = 0x1 → t.extract_nnn % 2 = 0)
    (hc : t.instruction >>> 12 = 0x2 → t.extract_nnn % 2 = 0)
    (hb : t.instruction >>> 12 = 0xB → (t.registers 0 + t.extract_nnn) % 2 = 0) :
    t'.pc % 2 = 0 ∧ ∀ i, t'.stack.stack i % 2 = 0 := by
  unfold Chip8.execute_instruction at h
  repeat' split at h
  all_goals first
    | (obtain ⟨_, e⟩ := Chip8.call_nnn_shape _ _ h
       rw [e]
       refine ⟨hc ?_, setAt_even _ _ _ hst ?_⟩
       · assumption
       · unfold U16; omega)
    | (obtain ⟨sp, e⟩ := Chip8.ret_shape _ _ h
       rw [e]
       exact ⟨hst sp, hst⟩)
    | (obtain ⟨_, e⟩ := Chip8.drw_shape _ _ h
       rw [e, paint_pc, paint_stack]
       exact ⟨hpc, hst⟩)
    | (obtain ⟨_, e⟩ := Chip8.skp_vx_shape _ _ h
       rw [e]
       exact Chip8.skip_if_aligned _ _ hpc hst)
    | (obtain ⟨_, e⟩ := Chip8.sknp_vx_shape _ _ h
       rw [e]
       exact Chip8.skip_if_aligned _ _ hpc hst)
    | (obtain ⟨_, e⟩ := Chip8.ld_b_vx_shape _ _ h
       rw [e]
       exact ⟨hpc, hst⟩)
    | (obtain ⟨_, e⟩ := Chip8.ld_mem_vx_shape _ _ h
       rw [e]
       exact ⟨hpc, hst⟩)
    | (obtain ⟨_, e⟩ := Chip8.ld_vx_mem_shape _ _ h
       rw [e]
       exact ⟨hpc, hst⟩)
    | (cases h <;> exact ⟨hpc, hst⟩)
    | (cases h; exact Chip8.skip_if_aligned _ _ hpc hst)
    | (cases h; exact Chip8.ld_vx_k_aligned _ hpc hst)
    | (cases h
       refine ⟨hj ?_, hst⟩
       assumption)
    | (cases h
       refine ⟨?_, hst⟩
       show (t.registers 0 + t.extract_nnn) % U16 % 2 = 0
       have hb2 := hb (by assumption)
       unfold U16
       omega)

theorem cycle_aligned (r : Nat) (s s' : Chip8) (h : Chip8.cycle r s = .ok s')
    (hno : ¬ odd_jump s) (hpc : s.pc % 2 = 0) (hst : ∀ i, s.stack.stack i % 2 = 0) :
    s'.pc % 2 = 0 ∧ ∀ i, s'.stack.stack i % 2 = 0 := by
  obtain ⟨_, s2, he, e⟩ := cycle_split r s s' h
  unfold odd_jump at hno
  have hfetch : (Chip8.increment_pc { s with instruction := word_at s.memory s.pc }).extract_nnn
      = word_at s.memory s.pc % 4096 := by
    rw [Chip8.extract_nnn_eq]
    rfl
  have hop : (Chip8.increment_pc { s with instruction := word_at s.memory s.pc }).instruction
      >>> 12 = word_at s.memory s.pc / 4096 := by
    rw [Nat.shiftRight_eq_div_pow]
    rfl
  have hres := exec_aligned r _ s2 he
    (by show (s.pc + 2) % U16 % 2 = 0; unfold U16; omega) hst
    (by rw [hfetch, hop]; intro h1; omega)
    (by rw [hfetch, hop]; intro h1; omega)
    (by
      rw [hfetch, hop]
      intro h1
      show (s.registers 0 + word_at s.memory s.pc % 4096) % 2 = 0
      omega)
  rw [e, Chip8.decrement_timers_pc, Chip8.decrement_timers_stack]
  exact hres

theorem reachable_aligned_inv (s : Chip8) (h : ReachableAligned s) :
    s.pc % 2 = 0 ∧ ∀ i, s.stack.stack i % 2 = 0 := by
  induction h with
  | construct => exact ⟨rfl, fun _ => rfl⟩
  | load s rom _ ih => exact ih
  | keys s k _ ih => exact ih
  | reset s _ => exact ⟨(by decide : START_ADDRESS % 2 = 0), fun _ => rfl⟩
  | cycle s s' r _ hno hc ih => exact cycle_aligned r s s' hc hno ih.1 ih.2

/-- C20 as amended: in every state reachable from a freshly constructed or
reset machine by successful cycles none of which executes a jump or call (1NNN,
2NNN) with odd NNN or a jump with offset (BNNN) with V0 + NNN odd, for any
loaded programs and keypad inputs, the program counter is even. -/
theorem pc_even_without_odd_jumps (s : Chip8) (h : ReachableAligned s) : s.pc % 2 = 0 :=
  (reachable_aligned_inv s h).1

/-- An instance of C20 as amended: after the first cycle of the program
6A02 6B03 8AB4 the program counter is even. -/
theorem pc_even_without_odd_jumps_witness :
    ∃ s', Chip8.cycle 0 (Chip8.new.load_rom rom_add_demo) = .ok s' ∧ s'.pc = 0x202 ∧
      s'.pc % 2 = 0 := by
  have hno : ¬ odd_jump (Chip8.new.load_rom rom_add_demo) := by
    unfold odd_jump
    decide
  have hc : Chip8.cycle 0 (Chip8.new.load_rom rom_add_demo) =
      .ok (Chip8.decrement_timers (Chip8.ld_vx_nn (Chip8.increment_pc
        { Chip8.new.load_rom rom_add_demo with
          instruction := word_at (Chip8.new.load_rom rom_add_demo).memory
            (Chip8.new.load_rom rom_add_demo).pc }))) := rfl
  exact ⟨_, hc, rfl,
    pc_even_without_odd_jumps _
      (ReachableAligned.cycle _ _ 0 (ReachableAligned.load _ _ ReachableAligned.construct) hno hc)⟩

/-! ## Random numbers -/

theorem exec_rnd_vx_nn (r : Nat) (t : Chip8) (h12 : t.instruction >>> 12 = 0xC) :
    Chip8.execute_instruction r t = .ok (Chip8.rnd_vx_nn r t) := by
  simp [Chip8.execute_instruction, h12]

theorem and_mask_idem (a m : Nat) : (a &&& m) &&& m = a &&& m := by
  rw [Nat.and_assoc, Nat.and_self]

theorem and_byte (a : Nat) : a &&& 0xFF = a % 256 := by
  have h : (0xFF : Nat) = 2 ^ 8 - 1 := by decide
  rw [h, Nat.and_pow_two_sub_one_eq_mod]

/-- C21: with `std::rand()` returning any natural number r, the random
instruction CXNN leaves VX = (r mod 255) AND NN; the result has no bit set
outside NN; the value before masking is at most 254, so CXFF never produces
0xFF; every register other than VX is unchanged. -/
theorem rnd_masked (r : Nat) (s : Chip8) (X NN : Nat) (hX : X ≤ 0xF) (hNN : NN ≤ 0xFF)
    (hi : s.instruction = 0xC000 + 0x100 * X + NN) :
    ∃ s', Chip8.execute_instruction r s = .ok s' ∧
      s'.registers X = (r % 255) &&& NN ∧
      s'.registers X &&& NN = s'.registers X ∧
      (∀ i, (s'.registers X).testBit i = true → NN.testBit i = true) ∧
      r % 255 ≤ 254 ∧
      (NN = 0xFF → s'.registers X ≠ 0xFF) ∧
      ∀ i, i ≠ X → s'.registers i = s.registers i := by
  have h12 : s.instruction >>> 12 = 0xC := by rw [Chip8.opclass_eq]; omega
  have hnn : s.extract_nn = NN := by rw [Chip8.extract_nn_eq]; omega
  have hx : s.extract_x = X := by rw [Chip8.extract_x_eq]; omega
  have hle : (r % 255) &&& NN ≤ r % 255 := Nat.and_le_left
  have hlt : r % 255 ≤ 254 := by omega
  have hval : (Chip8.rnd_vx_nn r s).registers X = (r % 255) &&& NN := by
    show setAt s.registers s.extract_x (((r % UINT8_MAX) &&& s.extract_nn) % U8) X = _
    rw [hx, hnn, setAt_same]
    unfold UINT8_MAX U8
    omega
  refine ⟨Chip8.rnd_vx_nn r s, exec_rnd_vx_nn r s h12, hval, ?_, ?_, hlt, ?_, ?_⟩
  · rw [hval, and_mask_idem]
  · intro i hb
    rw [hval, Nat.testBit_and] at hb
    simp only [Bool.and_eq_true] at hb
    exact hb.2
  · intro hff
    rw [hval, hff, and_byte]
    omega
  · intro i hne
    show setAt s.registers s.extract_x (((r % UINT8_MAX) &&& s.extract_nn) % U8) i = _
    rw [hx, setAt_other _ _ _ _ hne]

/-- An instance of C21: with `std::rand()` returning 509 the instruction C3FF
leaves V3 = 0xFE. -/
theorem rnd_masked_witness :
    ∃ s', Chip8.execute_instruction 509 (machine 0xC3FF (fun _ => 0)) = .ok s' ∧
      s'.registers 0x3 = 0xFE ∧ s'.registers 0x3 ≠ 0xFF := by
  obtain ⟨s', e, h1, _, _, _, h5, _⟩ :=
    rnd_masked 509 (machine 0xC3FF (fun _ => 0)) 3 0xFF (by decide) (by decide) (by decide)
  exact ⟨s', e, by rw [h1]; decide, h5 rfl⟩

/-! ## Skipping on a key -/

theorem exec_skp_vx (r : Nat) (t : Chip8) (h12 : t.instruction >>> 12 = 0xE)
    (hnn : t.extract_nn = 0x9E) :
    Chip8.execute_instruction r t = t.skp_vx := by
  simp [Chip8.execute_instruction, h12, hnn]

theorem exec_sknp_vx (r : Nat) (t : Chip8) (h12 : t.instruction >>> 12 = 0xE)
    (hnn : t.extract_nn = 0xA1) :
    Chip8.execute_instruction r t = t.sknp_vx := by
  simp [Chip8.execute_instruction, h12, hnn]

theorem Chip8.skp_vx_as_outcome (s : Chip8) : s.skp_vx = as_result s.skp_vx_outcome := by
  unfold Chip8.skp_vx Chip8.skp_vx_outcome as_result
  split <;> rfl

theorem Chip8.sknp_vx_as_outcome (s : Chip8) : s.sknp_vx = as_result s.sknp_vx_outcome := by
  unfold Chip8.sknp_vx Chip8.sknp_vx_outcome as_result
  split <;> rfl

theorem Chip8.skip_if_eq (s : Chip8) (c : Bool) :
    s.skip_if c = { s with pc := if c = true then (s.pc + 2) % U16 else s.pc } := by
  cases c <;> rfl

theorem Chip8.decrement_timers_index (s : Chip8) : s.decrement_timers.index = s.index := by
  simp only [Chip8.decrement_timers]
  split_ifs <;> rfl

theorem Chip8.decrement_timers_screen (s : Chip8) : s.decrement_timers.screen = s.screen := by
  simp only [Chip8.decrement_timers]
  split_ifs <;> rfl

/-- The words EX9E and EXA1 reach `skp_vx` and `sknp_vx` through the dispatcher,
and the register they read is VX. -/
theorem exec_key_skip (r : Nat) (s : Chip8) (X : Nat) (hX : X ≤ 0xF) :
    (s.instruction = 0xE09E + 0x100 * X →
      Chip8.execute_instruction r s = s.skp_vx ∧ s.vx = s.registers X) ∧
    (s.instruction = 0xE0A1 + 0x100 * X →
      Chip8.execute_instruction r s = s.sknp_vx ∧ s.vx = s.registers X) := by
  constructor
  · intro hi
    have h12 : s.instruction >>> 12 = 0xE := by rw [Chip8.opclass_eq]; omega
    have hnn : s.extract_nn = 0x9E := by rw [Chip8.extract_nn_eq]; omega
    have hx : s.extract_x = X := by rw [Chip8.extract_x_eq]; omega
    exact ⟨exec_skp_vx r s h12 hnn, by unfold Chip8.vx; rw [hx]⟩
  · intro hi
    have h12 : s.instruction >>> 12 = 0xE := by rw [Chip8.opclass_eq]; omega
    have hnn : s.extract_nn = 0xA1 := by rw [Chip8.extract_nn_eq]; omega
    have hx : s.extract_x = X := by rw [Chip8.extract_x_eq]; omega
    exact ⟨exec_sknp_vx r s h12 hnn, by unfold Chip8.vx; rw [hx]⟩

theorem Chip8.skp_vx_ok (s : Chip8) (h : s.vx < KEY_COUNT) :
    s.skp_vx = .ok (s.skip_if (s.keys_pressed s.vx)) := by
  unfold Chip8.skp_vx
  rw [if_pos h]

theorem Chip8.sknp_vx_ok (s : Chip8) (h : s.vx < KEY_COUNT) :
    s.sknp_vx = .ok (s.skip_if (!s.keys_pressed s.vx)) := by
  unfold Chip8.sknp_vx
  rw [if_pos h]

theorem Chip8.skp_vx_error (s : Chip8) (h : ¬ s.vx < KEY_COUNT) :
    s.skp_vx = .error .out_of_range ∧ s.skp_vx_outcome = (s, some .out_of_range) := by
  unfold Chip8.skp_vx Chip8.skp_vx_outcome
  rw [if_neg h, if_neg h]
  exact ⟨rfl, rfl⟩

theorem Chip8.sknp_vx_error (s : Chip8) (h : ¬ s.vx < KEY_COUNT) :
    s.sknp_vx = .error .out_of_range ∧ s.sknp_vx_outcome = (s, some .out_of_range) := by
  unfold Chip8.sknp_vx Chip8.sknp_vx_outcome
  rw [if_neg h, if_neg h]
  exact ⟨rfl, rfl⟩

/-- A successful cycle on a key-skip instruction: `c` is the condition handed to
`skip_if`. -/
theorem cycle_skip_result (s t2 : Chip8) (c : Bool) (hf : s.pc + 1 < MEMORY_SIZE)
    (ht : t2 = Chip8.decrement_timers (Chip8.skip_if
      (Chip8.increment_pc { s with instruction := word_at s.memory s.pc }) c)) :
    t2.pc = (if c = true then s.pc + 4 else s.pc + 2) ∧
    t2.registers = s.registers ∧ t2.index = s.index ∧ t2.memory = s.memory ∧
    t2.stack = s.stack ∧ t2.screen = s.screen ∧ t2.keys_pressed = s.keys_pressed := by
  subst ht
  rw [Chip8.decrement_timers_pc, Chip8.decrement_timers_registers, Chip8.decrement_timers_index,
    Chip8.decrement_timers_memory, Chip8.decrement_timers_stack, Chip8.decrement_timers_screen,
    Chip8.decrement_timers_keys, Chip8.skip_if_eq]
  refine ⟨?_, rfl, rfl, rfl, rfl, rfl, rfl⟩
  show (if c = true then ((s.pc + 2) % U16 + 2) % U16 else (s.pc + 2) % U16) = _
  unfold MEMORY_SIZE at hf
  unfold U16
  split <;> omega

/-- C22: for every state with VX <= 15, EX9E advances the program counter by a
further 2 exactly when keypad flag VX is set and EXA1 exactly when it is not
set, changing nothing else (the timer tick of the cycle apart); for every state
with VX >= 16 both fail with the out-of-range error and the handler leaves the
machine, the program counter included, as it found it. The statement is given
for the handler reached through the dispatcher and for the whole cycle. -/
theorem key_skip (r : Nat) (s : Chip8) (X : Nat) (hX : X ≤ 0xF) :
    (s.instruction = 0xE09E + 0x100 * X →
      Chip8.execute_instruction r s = as_result s.skp_vx_outcome ∧
      (s.registers X ≤ 15 → Chip8.execute_instruction r s =
        .ok { s with
              pc := if s.keys_pressed (s.registers X) = true then (s.pc + 2) % U16 else s.pc }) ∧
      (s.registers X ≥ 16 → Chip8.execute_instruction r s = .error .out_of_range ∧
        s.skp_vx_outcome = (s, some .out_of_range))) ∧
    (s.instruction = 0xE0A1 + 0x100 * X →
      Chip8.execute_instruction r s = as_result s.sknp_vx_outcome ∧
      (s.registers X ≤ 15 → Chip8.execute_instruction r s =
        .ok { s with
              pc := if s.keys_pressed (s.registers X) = true then s.pc else (s.pc + 2) % U16 }) ∧
      (s.registers X ≥ 16 → Chip8.execute_instruction r s = .error .out_of_range ∧
        s.sknp_vx_outcome = (s, some .out_of_range))) ∧
    (s.pc + 1 < MEMORY_SIZE → word_at s.memory s.pc = 0xE09E + 0x100 * X →
      (s.registers X ≤ 15 → ∃ s', Chip8.cycle r s = .ok s' ∧
        s'.pc = (if s.keys_pressed (s.registers X) = true then s.pc + 4 else s.pc + 2) ∧
        s'.registers = s.registers ∧ s'.index = s.index ∧ s'.memory = s.memory ∧
        s'.stack = s.stack ∧ s'.screen = s.screen ∧ s'.keys_pressed = s.keys_pressed) ∧
      (s.registers X ≥ 16 → Chip8.cycle r s = .error .out_of_range)) ∧
    (s.pc + 1 < MEMORY_SIZE → word_at s.memory s.pc = 0xE0A1 + 0x100 * X →
      (s.registers X ≤ 15 → ∃ s', Chip8.cycle r s = .ok s' ∧
        s'.pc = (if s.keys_pressed (s.registers X) = true then s.pc + 2 else s.pc + 4) ∧
        s'.registers = s.registers ∧ s'.index = s.index ∧ s'.memory = s.memory ∧
        s'.stack = s.stack ∧ s'.screen = s.screen ∧ s'.keys_pressed = s.keys_pressed) ∧
      (s.registers X ≥ 16 → Chip8.cycle r s = .error .out_of_range)) := by
  refine ⟨?_, ?_, ?_, ?_⟩
  · intro hi
    obtain ⟨e, hv⟩ := (exec_key_skip r s X hX).1 hi
    refine ⟨by rw [e, Chip8.skp_vx_as_outcome], ?_, ?_⟩
    · intro hle
      rw [e, Chip8.skp_vx_ok s (by rw [hv]; unfold KEY_COUNT; omega), Chip8.skip_if_eq, hv]
    · intro hge
      rw [e]
      exact Chip8.skp_vx_error s (by rw [hv]; unfold KEY_COUNT; omega)
  · intro hi
    obtain ⟨e, hv⟩ := (exec_key_skip r s X hX).2 hi
    refine ⟨by rw [e, Chip8.sknp_vx_as_outcome], ?_, ?_⟩
    · intro hle
      rw [e, Chip8.sknp_vx_ok s (by rw [hv]; unfold KEY_COUNT; omega), Chip8.skip_if_eq, hv]
      cases s.keys_pressed (s.registers X) <;> rfl
    · intro hge
      rw [e]
      exact Chip8.sknp_vx_error s (by rw [hv]; unfold KEY_COUNT; omega)
  · intro hf hw
    obtain ⟨e, hv⟩ := (exec_key_skip r
      (Chip8.increment_pc { s with instruction := word_at s.memory s.pc }) X hX).1 hw
    have hv2 : (Chip8.increment_pc { s with instruction := word_at s.memory s.pc }).vx
        = s.registers X := hv
    constructor
    · intro hle
      have hc := Chip8.skp_vx_ok
        (Chip8.increment_pc { s with instruction := word_at s.memory s.pc })
        (by rw [hv2]; unfold KEY_COUNT; omega)
      rw [hv2] at hc
      refine ⟨_, by rw [Chip8.cycle_eq r s hf, e, hc], ?_⟩
      exact cycle_skip_result s _ (s.keys_pressed (s.registers X)) hf rfl
    · intro hge
      rw [Chip8.cycle_eq r s hf, e, (Chip8.skp_vx_error _
        (by rw [hv2]; unfold KEY_COUNT; omega)).1]
  · intro hf hw
    obtain ⟨e, hv⟩ := (exec_key_skip r
      (Chip8.increment_pc { s with instruction := word_at s.memory s.pc }) X hX).2 hw
    have hv2 : (Chip8.increment_pc { s with instruction := word_at s.memory s.pc }).vx
        = s.registers X := hv
    constructor
    · intro hle
      have hc := Chip8.sknp_vx_ok
        (Chip8.increment_pc { s with instruction := word_at s.memory s.pc })
        (by rw [hv2]; unfold KEY_COUNT; omega)
      rw [hv2] at hc
      refine ⟨_, by rw [Chip8.cycle_eq r s hf, e, hc], ?_⟩
      have hres := cycle_skip_result s _ (!s.keys_pressed (s.registers X)) hf rfl
      refine ⟨Eq.trans hres.1 ?_, hres.2⟩
      cases s.keys_pressed (s.registers X) <;> rfl
    · intro hge
      rw [Chip8.cycle_eq r s hf, e, (Chip8.sknp_vx_error _
        (by rw [hv2]; unfold KEY_COUNT; omega)).1]

/-- An instance of C22: with keys 5 and 9 held and V3 = 5, a cycle on E39E at
0x200 ends at 0x204 and a cycle on E3A1 ends at 0x202; with V3 = 16 the cycle
on E39E fails with the out-of-range error. -/
theorem key_skip_witness :
    (∃ s', Chip8.cycle 0 (machine_keys_regs 0x200 0xE3 0x9E keys_5_and_9 regs_v3_5) = .ok s' ∧
      s'.pc = 0x204) ∧
    (∃ s', Chip8.cycle 0 (machine_keys_regs 0x200 0xE3 0xA1 keys_5_and_9 regs_v3_5) = .ok s' ∧
      s'.pc = 0x202) ∧
    Chip8.cycle 0 (machine_keys_regs 0x200 0xE3 0x9E keys_5_and_9 regs_v3_16)
      = .error .out_of_range := by
  have h1 := (key_skip 0 (machine_keys_regs 0x200 0xE3 0x9E keys_5_and_9 regs_v3_5) 3
    (by decide)).2.2.1 (by decide) (by decide)
  have h2 := (key_skip 0 (machine_keys_regs 0x200 0xE3 0xA1 keys_5_and_9 regs_v3_5) 3
    (by decide)).2.2.2 (by decide) (by decide)
  have h3 := (key_skip 0 (machine_keys_regs 0x200 0xE3 0x9E keys_5_and_9 regs_v3_16) 3
    (by decide)).2.2.1 (by decide) (by decide)
  obtain ⟨s1, e1, p1, _⟩ := h1.1 (by decide)
  obtain ⟨s2, e2, p2, _⟩ := h2.1 (by decide)
  exact ⟨⟨s1, e1, by rw [p1]; decide⟩, ⟨s2, e2, by rw [p2]; decide⟩, h3.2 (by decide)⟩
